import Mathlib

/-!
# Verification of the undisorder deduplication / import core

Shallow embedding of the repository's core (src/undisorder/hashdb.py,
src/undisorder/hasher.py, src/undisorder/importer.py) and proofs about it.

The SQLite store is modelled as in-memory lists of rows; filesystem state as
a list of file entries keyed by absolute path; external collaborators
(metadata extraction, geocoding, destination naming, audio identification,
operator prompts) as abstract function parameters, following the narrow
contracts they expose to the core.  File hashes, paths and target identities
are strings, as in the source.
-/

set_option maxRecDepth 4000

namespace Undisorder

/-- A row of the `files` table (hashdb.py `_SCHEMA`): one file known at a
relative path inside one target collection. -/
structure FileRec where
  target : String
  hash : String
  fileSize : Nat
  filePath : String
  dateTaken : Option String
  sourcePath : Option String
deriving Repr, DecidableEq

/-- A row of the `imports` table: one source path that has been considered,
keyed by (target_dir, source_path). -/
structure ImportRec where
  target : String
  sourcePath : String
  hash : String
  filePath : Option String
deriving Repr, DecidableEq

/-- A row of the `acoustid_cache` table, keyed by file hash. -/
structure CacheRec where
  fileHash : String
  fingerprint : Option String
  duration : Option String
  recordingId : Option String
  artist : Option String
  album : Option String
  title : Option String
  trackNumber : Option Nat
  discNumber : Option Nat
  year : Option Nat
  lookupDate : String
deriving Repr, DecidableEq

/-- The central SQLite database (one store shared by all target collections,
as `HashDB` instances all open `_default_db_path()`). -/
structure DBState where
  files : List FileRec
  imports : List ImportRec
  acoustid : List CacheRec
deriving Repr, DecidableEq

/-- Errors surfaced by the embedded code.  `integrityError` is sqlite's
primary-key violation on INSERT; `attrErrorDeleteByHash` is the Python
AttributeError raised by `db.delete_by_hash(...)` in importer.py, a method
that does not exist on `HashDB` (hashdb.py defines only `delete_by_path`
and `delete_by_hash_and_path`); `typeErrorSourceRoot` is the Python
TypeError raised whenever importer.py calls `suggest_dirname(meta,
place_name=..., source_root=args.source)` (lines 170 and 226) or
`determine_target_path(..., source_root=args.source)` (line 285), because
organizer.py defines `suggest_dirname(meta, *, place_name=None)` and
`determine_target_path(*, meta, images_target, video_target, is_video,
place_name=None)` — neither accepts a `source_root` keyword. -/
inductive DBError where
  | integrityError
  | attrErrorDeleteByHash
  | typeErrorSourceRoot
deriving Repr, DecidableEq

namespace HashDB

/-- `HashDB.insert`: INSERT INTO files; fails with an IntegrityError when the
primary key (target_dir, hash, file_path) is already present. -/
def insert (st : DBState) (r : FileRec) : Except DBError DBState :=
  if st.files.any (fun q =>
      q.target == r.target && q.hash == r.hash && q.filePath == r.filePath) then
    .error .integrityError
  else
    .ok { st with files := st.files ++ [r] }

/-- `HashDB.hash_exists`: SELECT 1 FROM files WHERE target_dir = ? AND hash = ?. -/
def hash_exists (st : DBState) (target : String) (h : String) : Bool :=
  st.files.any (fun r => r.target == target && r.hash == h)

/-- `HashDB.get_by_hash`: all files rows for one (target, hash). -/
def get_by_hash (st : DBState) (target : String) (h : String) : List FileRec :=
  st.files.filter (fun r => r.target == target && r.hash == h)

/-- `HashDB.delete_by_path`: DELETE FROM files WHERE target_dir = ? AND file_path = ?. -/
def delete_by_path (st : DBState) (target : String) (p : String) : DBState :=
  { st with files := st.files.filter (fun r => !(r.target == target && r.filePath == p)) }

/-- `HashDB.delete_by_hash_and_path`: DELETE FROM files WHERE target_dir = ?
AND hash = ? AND file_path = ?. -/
def delete_by_hash_and_path (st : DBState) (target : String) (h : String) (p : String) :
    DBState :=
  { st with files := st.files.filter (fun r =>
      !(r.target == target && r.hash == h && r.filePath == p)) }

/-- `HashDB.get_import`: SELECT * FROM imports WHERE target_dir = ? AND source_path = ?. -/
def get_import (st : DBState) (target : String) (sourcePath : String) : Option ImportRec :=
  st.imports.find? (fun r => r.target == target && r.sourcePath == sourcePath)

/-- `HashDB.record_import`: INSERT OR IGNORE INTO imports — insert-if-absent on
the primary key (target_dir, source_path). -/
def record_import (st : DBState) (target : String) (sourcePath : String)
    (h : String) (filePath : Option String) : DBState :=
  if st.imports.any (fun r => r.target == target && r.sourcePath == sourcePath) then
    st
  else
    { st with imports := st.imports ++ [⟨target, sourcePath, h, filePath⟩] }

/-- `HashDB.update_import`: UPDATE imports SET hash = ?, file_path = ? WHERE
target_dir = ? AND source_path = ?. -/
def update_import (st : DBState) (target : String) (sourcePath : String)
    (h : String) (filePath : Option String) : DBState :=
  { st with imports := st.imports.map (fun r =>
      if r.target == target && r.sourcePath == sourcePath then
        { r with hash := h, filePath := filePath }
      else r) }

/-- `HashDB.get_acoustid_cache`: SELECT * FROM acoustid_cache WHERE file_hash = ?. -/
def get_acoustid_cache (st : DBState) (fileHash : String) : Option CacheRec :=
  st.acoustid.find? (fun r => r.fileHash == fileHash)

/-- `HashDB.store_acoustid_cache`: INSERT OR REPLACE on the file_hash key. -/
def store_acoustid_cache (st : DBState) (r : CacheRec) : DBState :=
  { st with acoustid := (st.acoustid.filter (fun q => !(q.fileHash == r.fileHash))) ++ [r] }

end HashDB

/-- Claim helper: an imports row with a given key exists. -/
def importKeyPresent (st : DBState) (target sourcePath : String) : Bool :=
  st.imports.any (fun r => r.target == target && r.sourcePath == sourcePath)

/-! ## Grouping by key (Python dict / defaultdict bucketing)

Both `hasher.find_duplicates` and the importer group list elements into a
dict keyed by some attribute: keys appear in first-occurrence order and each
bucket holds the elements of that key in input order. -/

/-- Keys of a list in first-occurrence order, as a Python dict built by a
left-to-right loop would order them. -/
def keysOf [DecidableEq β] (key : α → β) : List α → List β
  | [] => []
  | x :: xs => key x :: (keysOf key xs).filter (fun k => !(k == key x))

/-- Group a list into (key, bucket) pairs: keys in first-occurrence order,
each bucket the elements with that key in input order. -/
def groupByKey [DecidableEq β] (key : α → β) (xs : List α) : List (β × List α) :=
  (keysOf key xs).map (fun k => (k, xs.filter (fun y => key y == k)))

/-! ## ContentHasher (hasher.py) -/

/-- A candidate file as the hasher observes it: its path, its stat size, and
the SHA-256 digest of its content. -/
structure SFile where
  path : String
  size : Nat
  hash : String
deriving Repr, DecidableEq

/-- `DuplicateGroup` (hasher.py): a content hash, the byte size, and the
paths sharing that content. -/
structure DuplicateGroup where
  hash : String
  file_size : Nat
  paths : List String
deriving Repr, DecidableEq

/-- `hasher.find_duplicates`: phase 1 buckets by size, keeps buckets with at
least two members; phase 2 groups each surviving bucket by hash and emits the
hash-clusters with at least two members. -/
def find_duplicates (files : List SFile) : List DuplicateGroup :=
  if files.isEmpty then []
  else
    let sizeGroups := groupByKey (fun f => f.size) files
    let candidates := sizeGroups.filter (fun sg => 2 ≤ sg.2.length)
    (candidates.map (fun sg =>
      ((groupByKey (fun f => f.hash) sg.2).filter (fun hg => 2 ≤ hg.2.length)).map
        (fun hg => DuplicateGroup.mk hg.1 sg.1 (hg.2.map (fun f => f.path))))).flatten

/-- The files hashed in phase 2: every member of each surviving size bucket
(members of size-1 buckets are never hashed). -/
def hashedFiles (files : List SFile) : List SFile :=
  if files.isEmpty then []
  else
    (((groupByKey (fun f => f.size) files).filter
        (fun sg => 2 ≤ sg.2.length)).map (fun sg => sg.2)).flatten

/-! ## HashDB.rebuild (hashdb.py)

`rebuild` walks `target_dir.rglob("*")`.  The walk is modelled as a list of
tree entries (in the sorted order the code produces), each carrying its path
components relative to the target directory, whether it is a regular file,
and the stat size and content hash the code would observe. -/

/-- One entry of the target-tree walk. -/
structure TreeEntry where
  parts : List String
  isFile : Bool
  hash : String
  size : Nat
deriving Repr, DecidableEq

/-- Path components joined with "/" as `str(path.relative_to(target_dir))`
renders them. -/
def pathStr (parts : List String) : String := String.intercalate "/" parts

/-- Python `part.startswith(".")`: the first character is a dot. -/
def startsWithDot (s : String) : Bool :=
  match s.data with
  | [] => false
  | c :: _ => c == '.'

/-- Hidden check of `rebuild`: any path component starting with a dot. -/
def isHidden (parts : List String) : Bool := parts.any startsWithDot

/-- The tree entries `rebuild` indexes: regular files that are not hidden. -/
def visibleFiles (tree : List TreeEntry) : List TreeEntry :=
  tree.filter (fun e => e.isFile && !(isHidden e.parts))

/-- The files row `rebuild` inserts for one tree entry (`insert(hash=h,
file_size=..., file_path=str(rel))`; date_taken and source_path default to
NULL). -/
def rebuildRec (target : String) (e : TreeEntry) : FileRec :=
  ⟨target, e.hash, e.size, pathStr e.parts, none, none⟩

/-- The walk-and-insert loop of `rebuild`. -/
def rebuildGo (target : String) : List TreeEntry → DBState → Nat → Except DBError (DBState × Nat)
  | [], st, n => .ok (st, n)
  | e :: rest, st, n =>
    if e.isFile && !(isHidden e.parts) then
      match HashDB.insert st (rebuildRec target e) with
      | .error err => .error err
      | .ok st2 => rebuildGo target rest st2 (n + 1)
    else
      rebuildGo target rest st n

/-- `HashDB.rebuild`: DELETE FROM files WHERE target_dir = ?, then re-index
the walked tree, returning the count of files indexed. -/
def rebuild (st : DBState) (target : String) (tree : List TreeEntry) :
    Except DBError (DBState × Nat) :=
  rebuildGo target tree
    { st with files := st.files.filter (fun r => !(r.target == target)) } 0

/-! ## ImportOrchestrator (importer.py)

The orchestrator is embedded over an explicit world: the shared database,
the target-side filesystem (a list of file entries keyed by absolute path),
the set of directories created, the source files removed by move mode, and
the failure log.  External collaborators — metadata extraction, reverse
geocoding, destination naming (`suggest_dirname` /
`determine_audio_target_path`), audio fingerprinting and lookup, operator
prompts, wall-clock timestamps and traceback rendering — enter through an
`Env` of abstract functions, mirroring the narrow contracts importer.py
consumes them through. -/

/-- Photo/video metadata as the importer consumes it: an optional
already-formatted capture date (`date_taken` after `strftime`) and optional
GPS coordinates (`has_gps` holds iff both are present). -/
structure Metadata where
  dateTaken : Option String
  gps : Option (Int × Int)
deriving Repr, DecidableEq

/-- Audio tag metadata (audio_metadata.py `AudioMetadata`), fields as
consumed by identification and destination naming. -/
structure AudioMetadata where
  artist : Option String
  album : Option String
  title : Option String
  trackNumber : Option Nat
  discNumber : Option Nat
  year : Option Nat
  genre : Option String
deriving Repr, DecidableEq

/-- A scanned candidate file as the importer observes it: absolute source
path, the components of its parent directory relative to the scan root
(`f.parent.relative_to(source_root)`), its filename, content hash
(`hash_file(f)`), stat mtime and size, and whether `classify` says VIDEO. -/
structure Candidate where
  path : String
  relParent : List String
  name : String
  hash : String
  mtime : Nat
  size : Nat
  isVideo : Bool
deriving Repr, DecidableEq

/-- One target-side file: absolute path, content hash, mtime and size.
`shutil.copy2` preserves the source mtime; `shutil.move` does too. -/
structure FsEntry where
  path : String
  hash : String
  mtime : Nat
  size : Nat
deriving Repr, DecidableEq

/-- One line of the import-failures log (`_log_failure`). -/
structure FailureRec where
  timestamp : String
  sourceDir : List String
  mediaType : String
  files : List String
  errorType : String
  errorMessage : String
  diagTrace : String
deriving Repr, DecidableEq

/-- The mutable world the orchestrator acts on. -/
structure World where
  db : DBState
  fs : List FsEntry
  dirs : List String
  removedSources : List String
  failureLog : List FailureRec
deriving Repr, DecidableEq

/-- The import-relevant CLI flags (cli.py import subcommand defaults). -/
structure Args where
  imagesTarget : String
  videoTarget : String
  audioTarget : String
  dryRun : Bool
  move : Bool
  interactive : Bool
  update : Bool
  identify : Bool
  acoustidKey : Option String
deriving Repr, DecidableEq

/-- External collaborators, per the contracts the orchestrator consumes:
metadata extraction, geocoding, audio tag extraction, the audio target
namer, audio fingerprint/lookup services, the update prompt, and
clock/traceback rendering for the failure log.  The photo/video namer
(`suggest_dirname` / `determine_target_path`) is deliberately not
abstracted: importer.py invokes it with a `source_root` keyword that
organizer.py rejects, so every such call raises TypeError (see
`runPVBatch`), and the interactive group prompt that would follow it is
unreachable. -/
structure Env where
  metadataOf : String → Option Metadata
  geocode : Int × Int → Option String
  audioMetaOf : String → Option AudioMetadata
  determineAudioTargetRel : String → AudioMetadata → String
  fingerprint : String → Option (String × String)
  lookupAcoustid : String → String → Option String
  lookupMusicbrainz : String → Option AudioMetadata
  askUpdate : String → String
  envAcoustidKey : Option String
  nowStr : String
  formatExc : DBError → String

/-- Why a candidate was skipped. -/
inductive SkipReason where
  | alreadyPresent
  | notNewer
  | updateDeclined
  | updateFlagOff
deriving Repr, DecidableEq

/-- The per-candidate decision of the batch loop. -/
inductive PVDecision where
  | skip (r : SkipReason)
  | importNew
  | importUpdate (oldHash : String) (oldFilePath : Option String)
deriving Repr, DecidableEq

/-- An entry of the `to_import` list: the candidate plus the old hash and
old relative path when the entry is an update. -/
structure ToImportEntry where
  cand : Candidate
  oldHash : Option String
  oldFilePath : Option String
deriving Repr, DecidableEq

/-- `target_base / rel`. -/
def joinPath (a b : String) : String := a ++ "/" ++ b

/-- The target base directory for a photo/video candidate. -/
def baseFor (args : Args) (c : Candidate) : String :=
  if c.isVideo then args.videoTarget else args.imagesTarget

def fsFind (fs : List FsEntry) (p : String) : Option FsEntry :=
  fs.find? (fun e => e.path == p)

def fsExists (fs : List FsEntry) (p : String) : Bool :=
  fs.any (fun e => e.path == p)

/-- `mkdir(parents=True, exist_ok=True)`: idempotent directory creation. -/
def addDir (dirs : List String) (d : String) : List String :=
  if d ∈ dirs then dirs else dirs ++ [d]

/-- `shutil.copy2(src, dest)` / `shutil.move(src, dest)` as seen from the
target side: the destination entry takes the source content, size and mtime
(copy2 preserves timestamps), overwriting an existing entry at that path. -/
def fsWrite (fs : List FsEntry) (p : String) (c : Candidate) : List FsEntry :=
  if fs.any (fun e => e.path == p) then
    fs.map (fun e => if e.path == p then ⟨p, c.hash, c.mtime, c.size⟩ else e)
  else
    fs ++ [⟨p, c.hash, c.mtime, c.size⟩]

/-- Execute the copy or move of one candidate to `dest`; move mode also
removes the source file. -/
def doCopyMove (w : World) (args : Args) (c : Candidate) (dest : String) : World :=
  let w2 := { w with fs := fsWrite w.fs dest c }
  if args.move then { w2 with removedSources := w2.removedSources ++ [c.path] } else w2

/-- Split a char list at its last occurrence of `sep`. -/
def splitLast (sep : Char) : List Char → Option (List Char × List Char)
  | [] => none
  | c :: rest =>
    match splitLast sep rest with
    | some (a, b) => some (c :: a, b)
    | none => if c == sep then some ([], rest) else none

/-- `Path.stem` / `Path.suffix` of the final path component: split at the
last dot unless it falls before the last path separator. -/
def stemSuffix (p : String) : String × String :=
  match splitLast '.' p.data with
  | none => (p, "")
  | some (a, b) => if b.contains '/' then (p, "") else (String.mk a, String.mk ('.' :: b))

/-- Everything before the final path component (`Path.parent`). -/
def parentDir (p : String) : String :=
  match splitLast '/' p.data with
  | none => ""
  | some (a, _) => String.mk a

/-- The counter loop of `organizer.resolve_collision`: try `stem_1suffix`,
`stem_2suffix`, ... until a free path is found.  The Python loop is
unbounded; here it carries fuel one larger than the number of occupied
paths, which the real loop never exhausts. -/
def resolveCollisionAux (fs : List FsEntry) (stem suffix : String) : Nat → Nat → String
  | 0, i => stem ++ "_" ++ toString i ++ suffix
  | fuel+1, i =>
    let cand := stem ++ "_" ++ toString i ++ suffix
    if fs.any (fun e => e.path == cand) then resolveCollisionAux fs stem suffix fuel (i+1)
    else cand

/-- `organizer.resolve_collision`: keep the path if free, else append an
incrementing numeric counter to the stem until free. -/
def resolveCollision (fs : List FsEntry) (p : String) : String :=
  if fs.any (fun e => e.path == p) then
    let sp := stemSuffix p
    resolveCollisionAux fs sp.1 sp.2 (fs.length + 1) 1
  else p

/-- `target_path.relative_to(target_base)` under the invariant that the
target path was built as `base ++ "/" ++ rel`. -/
def relOf (base dest : String) : String := dest.drop (base.length + 1)

/-- `_source_is_newer`: source stat mtime strictly greater than target. -/
def source_is_newer (c : Candidate) (e : FsEntry) : Bool := decide (e.mtime < c.mtime)

/-- `target_base / imp["file_path"] if imp["file_path"] else None` —
Python truthiness folds both NULL and the empty string to no old target. -/
def oldTargetOf (base : String) (imp : ImportRec) : Option String :=
  match imp.filePath with
  | none => none
  | some p => if p == "" then none else some (joinPath base p)

/-- The per-candidate decision loop body shared by
`_import_photo_video_batch` and `_import_audio_batch`: hash-presence check
first, then the import-record check with the source-newer guard and the
interactive / update-flag gates. -/
def decideCandidate (env : Env) (args : Args) (w : World) (base : String)
    (c : Candidate) : PVDecision :=
  if HashDB.hash_exists w.db base c.hash then .skip .alreadyPresent
  else
    match HashDB.get_import w.db base c.path with
    | some imp =>
      let sourceNewer :=
        match oldTargetOf base imp with
        | none => false
        | some tp =>
          match fsFind w.fs tp with
          | none => false
          | some e => source_is_newer c e
      if !sourceNewer then .skip .notNewer
      else if args.interactive then
        if ((env.askUpdate c.path).trim.toLower == "y") then
          .importUpdate imp.hash imp.filePath
        else .skip .updateDeclined
      else if !args.update then .skip .updateFlagOff
      else .importUpdate imp.hash imp.filePath
    | none => .importNew

/-- Photo/video decision for one candidate (`db`/`target_base` chosen by
`classify`). -/
def pvDecide (env : Env) (args : Args) (w : World) (c : Candidate) : PVDecision :=
  decideCandidate env args w (baseFor args c) c

/-- Phase A of `_import_photo_video_batch`: the decision of every batch
member (this phase performs no writes, so all decisions read the same
state). -/
def pvDecisions (env : Env) (args : Args) (w : World) (batch : List Candidate) :
    List (Candidate × PVDecision) :=
  batch.map (fun c => (c, pvDecide env args w c))

/-- The skipped counter of phase A. -/
def countSkips (ds : List (Candidate × PVDecision)) : Nat :=
  (ds.filter (fun cd => match cd.2 with | .skip _ => true | _ => false)).length

/-- The `to_import` list of phase A. -/
def toImportEntries (ds : List (Candidate × PVDecision)) : List ToImportEntry :=
  ds.filterMap (fun cd =>
    match cd.2 with
    | .skip _ => none
    | .importNew => some ⟨cd.1, none, none⟩
    | .importUpdate oh op => some ⟨cd.1, some oh, op⟩)

/-- `meta.date_taken.strftime(...) if meta.date_taken else None` for the
batch metadata map (absent metadata defaults to no date). -/
def dateStrOf (env : Env) (p : String) : Option String :=
  (env.metadataOf p).bind (fun m => m.dateTaken)

/-- The geocoded place name for one candidate (`geocoder.reverse` when the
metadata has GPS coordinates).  The batch loops compute it immediately
before the `suggest_dirname` call that then raises TypeError, so it is never
consumed. -/
def placeOf (env : Env) (c : Candidate) : Option String :=
  match env.metadataOf c.path with
  | none => none
  | some m =>
    match m.gps with
    | none => none
    | some g => env.geocode g

/-- The update loop of `_import_photo_video_batch` (lines 193-217): for each
update entry whose recorded target still exists, overwrite it in place, then
call `db.delete_by_hash(old_hash)` — a method `HashDB` does not define, so
Python raises AttributeError there, aborting the batch after the copy. -/
def pvRunUpdates (env : Env) (args : Args) :
    List ToImportEntry → World → Nat → World × Nat × Option DBError
  | [], w, n => (w, n, none)
  | e :: rest, w, n =>
    match e.oldFilePath with
    | none => pvRunUpdates env args rest w n
    | some op =>
      let base := baseFor args e.cand
      let oldTarget := joinPath base op
      match fsFind w.fs oldTarget with
      | none => pvRunUpdates env args rest w n
      | some _ =>
        let w2 := doCopyMove w args e.cand oldTarget
        match e.oldHash with
        | some _ => (w2, n, some .attrErrorDeleteByHash)
        | none =>
          match HashDB.insert w2.db
              ⟨base, e.cand.hash, e.cand.size, op, dateStrOf env e.cand.path,
               some e.cand.path⟩ with
          | .error err => (w2, n, some err)
          | .ok db2 =>
            let db3 := HashDB.update_import db2 base e.cand.path e.cand.hash (some op)
            pvRunUpdates env args rest { w2 with db := db3 } (n + 1)

/-- The per-batch outcome of `_import_photo_video_batch`. -/
structure BatchOut where
  imported : Nat
  skipped : Nat
  decisions : List (Candidate × PVDecision)
deriving Repr, DecidableEq

/-- `_import_photo_video_batch`: decide every candidate against the current
index, then — unless dry-run — execute updates first and new imports second.
An uncaught exception leaves the world mutated up to that point and surfaces
as an error.  Both paths that would import a new file are dead on arrival:
the dry-run listing calls `suggest_dirname(meta, place_name=...,
source_root=args.source)` for its first new entry (importer.py line 170) and
the real run makes the same call while building `resolved_new` (line 226,
before any prompt, mkdir or copy) — but `organizer.suggest_dirname(meta, *,
place_name=None)` accepts no `source_root` keyword, so Python raises
TypeError there (cli.py, the older sibling implementation, calls it without
`source_root`).  Hence a batch whose to-import list contains any new entry
errors after the update loop without copying anything, and the interactive
per-group prompt and the `determine_target_path` copy loop (line 285, same
`source_root` defect) are unreachable. -/
def runPVBatch (env : Env) (args : Args) (batch : List Candidate) (w : World) :
    World × Except DBError BatchOut :=
  let ds := pvDecisions env args w batch
  let skipped := countSkips ds
  let toImport := toImportEntries ds
  if toImport.isEmpty then (w, .ok ⟨0, skipped, ds⟩)
  else if args.dryRun then
    if toImport.any (fun e => !e.oldFilePath.isSome) then
      (w, .error .typeErrorSourceRoot)
    else (w, .ok ⟨toImport.length, skipped, ds⟩)
  else
    let updates := toImport.filter (fun e => e.oldFilePath.isSome)
    let news := toImport.filter (fun e => !e.oldFilePath.isSome)
    match pvRunUpdates env args updates w 0 with
    | (w2, n2, some err) => (w2, .error err)
    | (w2, n2, none) =>
      if news.isEmpty then (w2, .ok ⟨n2, skipped, ds⟩)
      else (w2, .error .typeErrorSourceRoot)

/-- `type(exc).__name__` for the embedded exceptions. -/
def errorTypeName : DBError → String
  | .integrityError => "IntegrityError"
  | .attrErrorDeleteByHash => "AttributeError"
  | .typeErrorSourceRoot => "TypeError"

/-- `str(exc)` for the embedded exceptions (the AttributeError names the
missing `delete_by_hash` attribute). -/
def errorMessageOf : DBError → String
  | .integrityError => "UNIQUE constraint failed"
  | .attrErrorDeleteByHash => "HashDB object has no attribute delete_by_hash"
  | .typeErrorSourceRoot =>
    "suggest_dirname() got an unexpected keyword argument source_root"

/-- `_log_failure`: append one structured entry to the failure log. -/
def logFailure (env : Env) (w : World) (relDir : List String) (mediaType : String)
    (batch : List Candidate) (err : DBError) : World :=
  { w with failureLog := w.failureLog ++
      [⟨env.nowStr, relDir, mediaType, batch.map (fun c => c.path),
        errorTypeName err, errorMessageOf err, env.formatExc err⟩] }

/-- Totals reported by one orchestrator run. -/
structure RunTotals where
  imported : Nat
  skipped : Nat
  failures : Nat
deriving Repr, DecidableEq

/-- Lexicographic comparison of path-component lists (PurePosixPath order
among the group keys). -/
def strListLt : List String → List String → Bool
  | [], [] => false
  | [], _ :: _ => true
  | _ :: _, [] => false
  | a :: as, b :: bs => if a < b then true else if b < a then false else strListLt as bs

/-- The sort key of `_group_by_source_dir`: most path parts first, then
lexicographic. -/
def dirKeyLe (a b : List String) : Bool :=
  if a.length == b.length then (strListLt a b || a == b) else decide (b.length < a.length)

/-- Insert into a sorted list (the comparison step of an insertion sort). -/
def insSorted (le : α → α → Bool) (x : α) : List α → List α
  | [] => [x]
  | y :: ys => if le x y then x :: y :: ys else y :: insSorted le x ys

/-- Insertion sort, extensionally the `sorted` call of
`_group_by_source_dir` (its keys are pairwise distinct, so stability is
irrelevant). -/
def sortByKey (le : α → α → Bool) : List α → List α
  | [] => []
  | x :: xs => insSorted le x (sortByKey le xs)

/-- `_group_by_source_dir`: bucket candidates by parent directory relative
to the scan root, then order the groups deepest-first and lexicographically
among equal depths. -/
def groupBySourceDir (files : List Candidate) :
    List (List String × List Candidate) :=
  sortByKey (fun a b => dirKeyLe a.1 b.1) (groupByKey (fun c => c.relParent) files)

/-- The slicing loop, structurally recursive on fuel (which `chunksOf`
instantiates with the list length; with a positive batch size the fuel is
never exhausted). -/
def chunksGo (bs : Nat) : Nat → List α → List (List α)
  | _, [] => []
  | 0, _ :: _ => []
  | fuel+1, x :: xs => ((x :: xs).take bs) :: chunksGo bs fuel ((x :: xs).drop bs)

/-- `range(0, len(files), batch_size)` slicing of one directory group. -/
def chunksOf (bs : Nat) (l : List α) : List (List α) := chunksGo bs l.length l

/-- The chunk lengths produced by slicing a list of length `n` (same
recursion at the level of lengths). -/
def lenChunksGo (bs : Nat) : Nat → Nat → List Nat
  | _, 0 => []
  | 0, _+1 => []
  | fuel+1, n+1 => min bs (n+1) :: lenChunksGo bs fuel ((n+1) - bs)

/-- Chunk lengths of a list of length `n`. -/
def lenChunks (bs n : Nat) : List Nat := lenChunksGo bs n n

/-- `_iter_batches`: slice every directory group into chunks of at most
`batchSize` files, keeping the group order. -/
def iterBatches (dirGroups : List (List String × List Candidate)) (batchSize : Nat) :
    List (List String × List Candidate) :=
  (dirGroups.map (fun g => (chunksOf batchSize g.2).map (fun ch => (g.1, ch)))).flatten

/-- `_import_photo_video` uses `batch_size=100`. -/
def photoVideoBatchSize : Nat := 100

/-- `_import_audio` uses `batch_size=10`. -/
def audioBatchSize : Nat := 10

/-- The fault-isolating batch loop of `_import_photo_video`: each chunk runs
inside its own try/except; a failing chunk appends one failure-log entry and
the loop continues with the next chunk. -/
def processPVBatches (env : Env) (args : Args) :
    List (List String × List Candidate) → World → RunTotals → World × RunTotals
  | [], w, t => (w, t)
  | (relDir, batch) :: rest, w, t =>
    match runPVBatch env args batch w with
    | (w2, .ok out) =>
      processPVBatches env args rest w2
        ⟨t.imported + out.imported, t.skipped + out.skipped, t.failures⟩
    | (w2, .error err) =>
      processPVBatches env args rest (logFailure env w2 relDir "photo_video" batch err)
        ⟨t.imported, t.skipped, t.failures + 1⟩

/-- `_import_photo_video`: create the target directories (skipped in
dry-run), group and batch the candidates, and run the batch loop. -/
def importPhotoVideo (env : Env) (args : Args) (mediaFiles : List Candidate)
    (w : World) : World × RunTotals :=
  if mediaFiles.isEmpty then (w, ⟨0, 0, 0⟩)
  else
    let w1 := if args.dryRun then w
      else { w with dirs := addDir (addDir w.dirs args.imagesTarget) args.videoTarget }
    processPVBatches env args
      (iterBatches (groupBySourceDir mediaFiles) photoVideoBatchSize) w1 ⟨0, 0, 0⟩

/-- Python `or` on optional tag strings (None and "" are falsy). -/
def orMetaStr (a b : Option String) : Option String :=
  match a with
  | none => b
  | some s => if s == "" then b else some s

/-- Python `or` on optional numeric tags (None and 0 are falsy). -/
def orMetaNat (a b : Option Nat) : Option Nat :=
  match a with
  | none => b
  | some 0 => b
  | some n => some n

/-- The merge of `identify_audio`: existing explicit tags win over looked-up
ones; genre is never looked up. -/
def mergeAudioMeta (existing lookup : AudioMetadata) : AudioMetadata :=
  ⟨orMetaStr existing.artist lookup.artist,
   orMetaStr existing.album lookup.album,
   orMetaStr existing.title lookup.title,
   orMetaNat existing.trackNumber lookup.trackNumber,
   orMetaNat existing.discNumber lookup.discNumber,
   orMetaNat existing.year lookup.year,
   existing.genre⟩

/-- `musicbrainz.identify_audio` with a db and file hash: consult the
hash-keyed cache; on a miss, fingerprint locally, look up AcoustID and
MusicBrainz (both fail soft), store the result in the cache — even when the
lookups produced nothing — and merge. -/
def identify_audio (env : Env) (path : String) (existing : AudioMetadata)
    (apiKey : Option String) (fileHash : String) (db : DBState) :
    DBState × AudioMetadata :=
  match apiKey with
  | none => (db, existing)
  | some _ =>
    match HashDB.get_acoustid_cache db fileHash with
    | some cached =>
      (db, mergeAudioMeta existing
        ⟨cached.artist, cached.album, cached.title, cached.trackNumber,
         cached.discNumber, cached.year, none⟩)
    | none =>
      match env.fingerprint path with
      | none => (db, existing)
      | some (dur, fp) =>
        let rid := env.lookupAcoustid fp dur
        let lookupMeta :=
          match rid with
          | none => none
          | some r => env.lookupMusicbrainz r
        let db2 := HashDB.store_acoustid_cache db
          ⟨fileHash, some fp, some dur, rid,
           lookupMeta.bind (fun m => m.artist),
           lookupMeta.bind (fun m => m.album),
           lookupMeta.bind (fun m => m.title),
           lookupMeta.bind (fun m => m.trackNumber),
           lookupMeta.bind (fun m => m.discNumber),
           lookupMeta.bind (fun m => m.year),
           env.nowStr⟩
        match lookupMeta with
        | none => (db2, existing)
        | some lm => (db2, mergeAudioMeta existing lm)

/-- Phase A of `_import_audio_batch`: per file, optionally identify (which
may write the identification cache), then run the same decision ladder
against the audio target. -/
def audioPhaseA (env : Env) (args : Args) (key : Option String) :
    List Candidate → World → (String → Option AudioMetadata) → Nat →
    List ToImportEntry →
    World × (String → Option AudioMetadata) × Nat × List ToImportEntry
  | [], w, mm, sk, ti => (w, mm, sk, ti)
  | f :: rest, w, mm, sk, ti =>
    let step : World × (String → Option AudioMetadata) :=
      match key with
      | none => (w, mm)
      | some k =>
        match mm f.path with
        | none => (w, mm)
        | some m =>
          let idres := identify_audio env f.path m (some k) f.hash w.db
          ({ w with db := idres.1 },
           fun p => if p == f.path then some idres.2 else mm p)
    let w1 := step.1
    let mm1 := step.2
    match decideCandidate env args w1 args.audioTarget f with
    | .skip _ => audioPhaseA env args key rest w1 mm1 (sk + 1) ti
    | .importNew => audioPhaseA env args key rest w1 mm1 sk (ti ++ [⟨f, none, none⟩])
    | .importUpdate oh op =>
      audioPhaseA env args key rest w1 mm1 sk (ti ++ [⟨f, some oh, op⟩])

/-- The default `AudioMetadata(source_path=...)` (all tags absent). -/
def emptyAudioMeta : AudioMetadata := ⟨none, none, none, none, none, none, none⟩

/-- The execution loop of `_import_audio_batch`: updates overwrite the old
target in place and then hit the missing `delete_by_hash`; an update entry
whose old target vanished falls through to a normal import; new files go to
the collision-resolved audio destination. -/
def audioRunEntries (env : Env) (args : Args) (mm : String → Option AudioMetadata) :
    List ToImportEntry → World → Nat → World × Nat × Option DBError
  | [], w, n => (w, n, none)
  | e :: rest, w, n =>
    let meta := (mm e.cand.path).getD emptyAudioMeta
    let runNew : World → World × Nat × Option DBError := fun w0 =>
      let natural := joinPath args.audioTarget (env.determineAudioTargetRel e.cand.name meta)
      let dest := resolveCollision w0.fs natural
      let w2 := { w0 with dirs := addDir w0.dirs (parentDir dest) }
      let w3 := doCopyMove w2 args e.cand dest
      let rel := relOf args.audioTarget dest
      match HashDB.insert w3.db
          ⟨args.audioTarget, e.cand.hash, e.cand.size, rel, none, some e.cand.path⟩ with
      | .error err => (w3, n, some err)
      | .ok db2 =>
        let db3 := HashDB.record_import db2 args.audioTarget e.cand.path e.cand.hash (some rel)
        ({ w3 with db := db3 }, n + 1, none)
    let afterNew : World × Nat × Option DBError :=
      match e.oldFilePath with
      | some op =>
        let oldTarget := joinPath args.audioTarget op
        match fsFind w.fs oldTarget with
        | some _ =>
          let w2 := doCopyMove w args e.cand oldTarget
          match e.oldHash with
          | some _ => (w2, n, some .attrErrorDeleteByHash)
          | none =>
            match HashDB.insert w2.db
                ⟨args.audioTarget, e.cand.hash, e.cand.size, op, none,
                 some e.cand.path⟩ with
            | .error err => (w2, n, some err)
            | .ok db2 =>
              let db3 := HashDB.update_import db2 args.audioTarget e.cand.path
                e.cand.hash (some op)
              ({ w2 with db := db3 }, n + 1, none)
        | none => runNew w
      | none => runNew w
    match afterNew with
    | (w4, n4, some err) => (w4, n4, some err)
    | (w4, n4, none) => audioRunEntries env args mm rest w4 n4

/-- The per-batch outcome of `_import_audio_batch`. -/
structure AudioOut where
  imported : Nat
  skipped : Nat
deriving Repr, DecidableEq

/-- `_import_audio_batch`. -/
def runAudioBatch (env : Env) (args : Args) (key : Option String)
    (batch : List Candidate) (w : World) : World × Except DBError AudioOut :=
  let r := audioPhaseA env args key batch w (fun p => env.audioMetaOf p) 0 []
  let w1 := r.1
  let mm1 := r.2.1
  let skipped := r.2.2.1
  let ti := r.2.2.2
  if ti.isEmpty then (w1, .ok ⟨0, skipped⟩)
  else if args.dryRun then (w1, .ok ⟨ti.length, skipped⟩)
  else
    match audioRunEntries env args mm1 ti w1 0 with
    | (w2, n, some err) => (w2, .error err)
    | (w2, n, none) => (w2, .ok ⟨n, skipped⟩)

/-- The fault-isolating batch loop of `_import_audio`. -/
def processAudioBatches (env : Env) (args : Args) (key : Option String) :
    List (List String × List Candidate) → World → RunTotals → World × RunTotals
  | [], w, t => (w, t)
  | (relDir, batch) :: rest, w, t =>
    match runAudioBatch env args key batch w with
    | (w2, .ok out) =>
      processAudioBatches env args key rest w2
        ⟨t.imported + out.imported, t.skipped + out.skipped, t.failures⟩
    | (w2, .error err) =>
      processAudioBatches env args key rest
        (logFailure env w2 relDir "audio" batch err)
        ⟨t.imported, t.skipped, t.failures + 1⟩

/-- `_import_audio`: resolve the AcoustID key (flag gated by `--identify`,
falling back to the environment variable), create the audio target (skipped
in dry-run), then group, batch and run. -/
def importAudio (env : Env) (args : Args) (audioFiles : List Candidate)
    (w : World) : World × RunTotals :=
  if audioFiles.isEmpty then (w, ⟨0, 0, 0⟩)
  else
    let key := if args.identify then
        (match args.acoustidKey with
         | some k => some k
         | none => env.envAcoustidKey)
      else none
    let w1 := if args.dryRun then w else { w with dirs := addDir w.dirs args.audioTarget }
    processAudioBatches env args key
      (iterBatches (groupBySourceDir audioFiles) audioBatchSize) w1 ⟨0, 0, 0⟩

/-- `run_import` after scanning/filtering (collaborators): the photo/video
pipeline followed by the audio pipeline, with summed totals. -/
def runImport (env : Env) (args : Args) (pvFiles audioFiles : List Candidate)
    (w : World) : World × RunTotals :=
  let r1 := importPhotoVideo env args pvFiles w
  let r2 := importAudio env args audioFiles r1.1
  (r2.1, ⟨r1.2.imported + r2.2.imported, r1.2.skipped + r2.2.skipped,
    r1.2.failures + r2.2.failures⟩)

deriving instance DecidableEq for Except

/-- A concrete environment used by witnesses: no metadata, no geocoding, a
fixed dirname suggestion, trivial prompts and lookups. -/
def demoEnv : Env :=
  { metadataOf := fun _ => none
    geocode := fun _ => none
    audioMetaOf := fun _ => some emptyAudioMeta
    determineAudioTargetRel := fun name _ => joinPath "Unknown Artist/Unknown Album" name
    fingerprint := fun _ => some ("180", "FPDATA")
    lookupAcoustid := fun _ _ => none
    lookupMusicbrainz := fun _ => none
    askUpdate := fun _ => ""
    envAcoustidKey := none
    nowStr := "2026-10-12T00:00:00"
    formatExc := fun _ => "Traceback (most recent call last)" }

/-- A concrete argument set used by witnesses: default non-interactive copy
mode. -/
def demoArgs : Args :=
  { imagesTarget := "/t/photos"
    videoTarget := "/t/videos"
    audioTarget := "/t/musik"
    dryRun := false
    move := false
    interactive := false
    update := false
    identify := false
    acoustidKey := none }

/-- The empty world. -/
def emptyWorld : World := ⟨⟨[], [], []⟩, [], [], [], []⟩

/-- Equality of every world component except the identification cache. -/
def WorldFrameEq (a b : World) : Prop :=
  a.fs = b.fs ∧ a.dirs = b.dirs ∧ a.removedSources = b.removedSources ∧
  a.failureLog = b.failureLog ∧ a.db.files = b.db.files ∧ a.db.imports = b.db.imports

/-- Equality of filesystem, directories, removed sources and both persistent
tables — the components a dry run must not touch; the failure log (dry
chunks can still fail) and the identification cache (dry identification can
still write it) are exempt. -/
def WorldStoreEq (a b : World) : Prop :=
  a.fs = b.fs ∧ a.dirs = b.dirs ∧ a.removedSources = b.removedSources ∧
  a.db.files = b.db.files ∧ a.db.imports = b.db.imports

/-- Facts the importer only ever grows: hash presence, import-record
presence, and created directories. -/
def worldMono (a b : World) : Prop :=
  (∀ t h, HashDB.hash_exists a.db t h = true → HashDB.hash_exists b.db t h = true) ∧
  (∀ t s, (HashDB.get_import a.db t s).isSome = true →
    (HashDB.get_import b.db t s).isSome = true) ∧
  (∀ d, d ∈ a.dirs → d ∈ b.dirs)

/-- A candidate is resolvable without touching the filesystem: its hash is
already indexed for its target, or an ImportRecord for its source path
exists. -/
def covered (args : Args) (w : World) (c : Candidate) : Prop :=
  HashDB.hash_exists w.db (baseFor args c) c.hash = true ∨
  (HashDB.get_import w.db (baseFor args c) c.path).isSome = true

/-- Concrete candidate for the hash-precedence scenario. -/
def c10cand : Candidate := ⟨"/s/a.jpg", [], "a.jpg", "h2", 10, 4, false⟩

/-- Concrete world for the hash-precedence scenario: the candidate content
hash is already present at another path, and a stale ImportRecord for the
source path still references a different hash. -/
def c10world : World :=
  ⟨⟨[⟨"/t/photos", "h2", 4, "x/other.jpg", none, none⟩],
    [⟨"/t/photos", "/s/a.jpg", "h1", some "x/a.jpg"⟩], []⟩, [], [], [], []⟩

/-- Concrete candidate for the confirmed-update scenario: the source file at
`/s/photo.jpg` now hashes to h2 and is newer (mtime 20) than the imported
target. -/
def c2cand : Candidate := ⟨"/s/photo.jpg", [], "photo.jpg", "h2", 20, 7, false⟩

/-- Concrete world for the confirmed-update scenario: `photo.jpg` was
imported earlier with hash h1 at `2024/photo.jpg` (target mtime 10). -/
def c2world : World :=
  ⟨⟨[⟨"/t/photos", "h1", 7, "2024/photo.jpg", none, some "/s/photo.jpg"⟩],
    [⟨"/t/photos", "/s/photo.jpg", "h1", some "2024/photo.jpg"⟩], []⟩,
   [⟨"/t/photos/2024/photo.jpg", "h1", 10, 7⟩], [], [], []⟩

/-- Concrete duplicate pair: identical content (hash "h"), `c1candB` has the
later modification time. -/
def c1candA : Candidate := ⟨"/s/a.jpg", [], "a.jpg", "h", 5, 3, false⟩

/-- The second file of the duplicate pair. -/
def c1candB : Candidate := ⟨"/s/b.jpg", [], "b.jpg", "h", 9, 3, false⟩

/-- Concrete fresh candidate for the idempotence scenario. -/
def c4cand : Candidate := ⟨"/s/d/a.jpg", ["d"], "a.jpg", "h4", 10, 4, false⟩

/-- A world whose index already holds the idempotence candidate content, as
an earlier (pre-defect) import would have left it. -/
def c4world : World :=
  ⟨⟨[⟨"/t/photos", "h4", 4, "2024/a.jpg", none, none⟩], [], []⟩, [], [], [], []⟩

/-- A 250-candidate single-directory group for the C8 witness. -/
def c8list : List Candidate :=
  (List.range 250).map (fun i => ⟨toString i, ["d"], toString i, "h", 0, 0, false⟩)

/-- The audio candidate of the dry-run scenario. -/
def c3audioCand : Candidate := ⟨"/s/song.mp3", [], "song.mp3", "ha", 5, 3, false⟩

/-- Dry-run arguments with audio identification enabled. -/
def c3args : Args :=
  { demoArgs with dryRun := true, identify := true, acoustidKey := some "KEY" }

/-- Arguments for the failure-isolation scenario: update mode on. -/
def c6args : Args := { demoArgs with update := true }

/-- The chunk preceding the failing one. -/
def c6pre : List (List String × List Candidate) := [([], [c1candA])]

/-- The chunk following the failing one. -/
def c6post : List (List String × List Candidate) := [([], [c1candB])]

/-- The world after the preceding chunk. -/
def c6w1 : World := (processPVBatches demoEnv c6args c6pre c2world ⟨0, 0, 0⟩).1

/-- The world the failing chunk leaves behind (target overwritten, index
untouched). -/
def c6w2 : World := (runPVBatch demoEnv c6args [c2cand] c6w1).1

/-! ## Theorems -/

theorem get_import_isSome_iff (st : DBState) (t s : String) :
    (HashDB.get_import st t s).isSome = importKeyPresent st t s := by
  simp only [HashDB.get_import, importKeyPresent]
  induction st.imports with
  | nil => rfl
  | cons r rs ih =>
    by_cases h : (r.target == t && r.sourcePath == s) = true
    · simp [List.find?, List.any, h]
    · simp only [Bool.not_eq_true] at h
      simp [List.find?, List.any, h, ih]

theorem mem_keysOf [DecidableEq β] (key : α → β) (xs : List α) (k : β) :
    k ∈ keysOf key xs ↔ ∃ x ∈ xs, key x = k := by
  induction xs with
  | nil => simp [keysOf]
  | cons x xs ih =>
    simp only [keysOf, List.mem_cons, List.mem_filter, ih]
    constructor
    · rintro (rfl | ⟨⟨y, hy, rfl⟩, _⟩)
      · exact ⟨x, by simp⟩
      · exact ⟨y, by simp [hy]⟩
    · rintro ⟨y, hy, rfl⟩
      rcases hy with rfl | hy2
      · exact Or.inl rfl
      · by_cases hk : key y = key x
        · exact Or.inl hk
        · exact Or.inr ⟨⟨y, hy2, rfl⟩, by simp [hk]⟩

theorem nodup_keysOf [DecidableEq β] (key : α → β) (xs : List α) :
    (keysOf key xs).Nodup := by
  induction xs with
  | nil => simp [keysOf]
  | cons x xs ih =>
    refine List.Nodup.cons ?_ (ih.filter _)
    intro hmem
    have := (List.mem_filter.mp hmem).2
    simp at this

theorem mem_groupByKey [DecidableEq β] (key : α → β) (xs : List α)
    (k : β) (g : List α) :
    (k, g) ∈ groupByKey key xs ↔
      (∃ x ∈ xs, key x = k) ∧ g = xs.filter (fun y => key y == k) := by
  simp only [groupByKey, List.mem_map, Prod.mk.injEq]
  constructor
  · rintro ⟨k2, hk2, rfl, rfl⟩
    exact ⟨(mem_keysOf key xs k2).mp hk2, rfl⟩
  · rintro ⟨hk, rfl⟩
    exact ⟨k, (mem_keysOf key xs k).mpr hk, rfl, rfl⟩

theorem self_mem_groupByKey_bucket [DecidableEq β] (key : α → β) (xs : List α)
    (x : α) (hx : x ∈ xs) :
    (key x, xs.filter (fun y => key y == key x)) ∈ groupByKey key xs :=
  (mem_groupByKey key xs _ _).mpr ⟨⟨x, hx, rfl⟩, rfl⟩

/-- Two distinct members force length at least two. -/
theorem two_le_length_of_mem_ne {l : List α} {a b : α}
    (ha : a ∈ l) (hb : b ∈ l) (hne : a ≠ b) : 2 ≤ l.length := by
  match l with
  | [] => exact absurd ha (List.not_mem_nil a)
  | [x] =>
    rcases List.mem_singleton.mp ha with rfl
    rcases List.mem_singleton.mp hb with rfl
    exact absurd rfl hne
  | x :: y :: rest => simp [List.length_cons]

/-- In a duplicate-free list of length at least two, every member has a
distinct companion. -/
theorem exists_ne_of_two_le_length_nodup {l : List α} {x : α}
    (hn : l.Nodup) (hx : x ∈ l) (hl : 2 ≤ l.length) : ∃ y ∈ l, y ≠ x := by
  match l with
  | [] => exact absurd hx (List.not_mem_nil x)
  | [a] => simp at hl
  | a :: b :: rest =>
    by_cases hxa : x = a
    · subst hxa
      refine ⟨b, by simp, ?_⟩
      intro hba
      have := List.nodup_cons.mp hn
      exact this.1 (hba ▸ List.mem_cons_self b rest)
    · exact ⟨a, by simp, fun h => hxa h.symm⟩

/-- Characterization of membership in the result of `find_duplicates`. -/
theorem mem_find_duplicates (files : List SFile) (g : DuplicateGroup) :
    g ∈ find_duplicates files ↔
      ∃ s B, (s, B) ∈ groupByKey (fun f => f.size) files ∧ 2 ≤ B.length ∧
        ∃ h HG, (h, HG) ∈ groupByKey (fun f => f.hash) B ∧ 2 ≤ HG.length ∧
          g = DuplicateGroup.mk h s (HG.map (fun f => f.path)) := by
  unfold find_duplicates
  by_cases hE : files.isEmpty
  · have : files = [] := List.isEmpty_iff.mp hE
    subst this
    simp [groupByKey, keysOf]
  · simp only [hE, Bool.false_eq_true, if_false, List.mem_flatten, List.mem_map,
      List.mem_filter, decide_eq_true_eq]
    constructor
    · rintro ⟨l, ⟨⟨s, B⟩, ⟨hsg, hlen⟩, rfl⟩, hg⟩
      rcases List.mem_map.mp hg with ⟨⟨h, HG⟩, hmem, rfl⟩
      rcases List.mem_filter.mp hmem with ⟨hmem2, hlen2⟩
      exact ⟨s, B, hsg, hlen, h, HG, hmem2, by simpa using hlen2, rfl⟩
    · rintro ⟨s, B, hsg, hlen, h, HG, hmem2, hlen2, rfl⟩
      refine ⟨_, ⟨⟨s, B⟩, ⟨hsg, hlen⟩, rfl⟩, ?_⟩
      exact List.mem_map.mpr ⟨⟨h, HG⟩, List.mem_filter.mpr ⟨hmem2, by simpa⟩, rfl⟩

/-- Membership in a `groupByKey` bucket. -/
theorem mem_bucket_iff [DecidableEq β] (key : α → β) (xs : List α)
    {k : β} {g : List α} (hg : (k, g) ∈ groupByKey key xs) (y : α) :
    y ∈ g ↔ y ∈ xs ∧ key y = k := by
  rcases (mem_groupByKey key xs k g).mp hg with ⟨-, rfl⟩
  simp [List.mem_filter]

/-- C5: Duplicate detection: `find_duplicates` buckets by byte size, discards
size-1 buckets without hashing, hashes every member of each surviving bucket,
and emits only clusters with at least 2 members re-clustered by (size, hash);
the empty input yields an empty result, a single file is never grouped with
itself, and a file appears in some emitted group iff another input file has
identical size and hash. -/
theorem find_duplicates_spec (files : List SFile)
    (hnodup : (files.map (fun f => f.path)).Nodup) :
    (find_duplicates ([] : List SFile) = [] ∧
     ∀ f : SFile, find_duplicates [f] = []) ∧
    (∀ g ∈ find_duplicates files, 2 ≤ g.paths.length) ∧
    (∀ g ∈ find_duplicates files, ∀ p ∈ g.paths,
       ∃ q ∈ files, q.path = p ∧ q.hash = g.hash ∧ q.size = g.file_size) ∧
    (∀ f ∈ files,
       ((∃ g ∈ find_duplicates files, f.path ∈ g.paths) ↔
        (∃ q ∈ files, q.path ≠ f.path ∧ q.size = f.size ∧ q.hash = f.hash))) ∧
    (∀ f ∈ files,
       (f ∈ hashedFiles files ↔
        2 ≤ (files.filter (fun q => q.size == f.size)).length)) := by
  have hfilesNodup : files.Nodup := List.Nodup.of_map _ hnodup
  have hinj : ∀ x ∈ files, ∀ y ∈ files, x.path = y.path → x = y := by
    intro x hx y hy hxy
    exact List.inj_on_of_nodup_map hnodup hx hy hxy
  refine ⟨⟨by simp [find_duplicates], ?single⟩, ?ge2, ?cluster, ?memiff, ?hashed⟩
  case single =>
    intro f
    simp [find_duplicates, groupByKey, keysOf, List.filter]
  case ge2 =>
    intro g hg
    rcases (mem_find_duplicates files g).mp hg with
      ⟨s, B, hsg, hlen, h, HG, hmem2, hlen2, rfl⟩
    simpa using hlen2
  case cluster =>
    intro g hg p hp
    rcases (mem_find_duplicates files g).mp hg with
      ⟨s, B, hsg, hlenB, h, HG, hHG, hlenHG, rfl⟩
    rcases List.mem_map.mp hp with ⟨q, hq, rfl⟩
    have hqB : q ∈ B ∧ q.hash = h := (mem_bucket_iff _ B hHG q).mp hq
    have hqf : q ∈ files ∧ q.size = s := (mem_bucket_iff _ files hsg q).mp hqB.1
    exact ⟨q, hqf.1, rfl, hqB.2, hqf.2⟩
  case memiff =>
    intro f hf
    constructor
    · rintro ⟨g, hg, hfp⟩
      rcases (mem_find_duplicates files g).mp hg with
        ⟨s, B, hsg, hlenB, h, HG, hHG, hlenHG, rfl⟩
      rcases List.mem_map.mp hfp with ⟨q0, hq0, hq0p⟩
      have hq0B : q0 ∈ B ∧ q0.hash = h := (mem_bucket_iff _ B hHG q0).mp hq0
      have hq0f : q0 ∈ files ∧ q0.size = s := (mem_bucket_iff _ files hsg q0).mp hq0B.1
      have hq0eq : q0 = f := hinj q0 hq0f.1 f hf hq0p
      subst hq0eq
      -- q0 = f sits in HG with |HG| ≥ 2; find a distinct companion
      have hHGnodup : HG.Nodup := by
        rcases (mem_groupByKey _ B h HG).mp hHG with ⟨-, rfl⟩
        rcases (mem_groupByKey _ files s B).mp hsg with ⟨-, rfl⟩
        exact (hfilesNodup.filter _).filter _
      rcases exists_ne_of_two_le_length_nodup hHGnodup hq0 hlenHG with ⟨y, hy, hyne⟩
      have hyB : y ∈ B ∧ y.hash = h := (mem_bucket_iff _ B hHG y).mp hy
      have hyf : y ∈ files ∧ y.size = s := (mem_bucket_iff _ files hsg y).mp hyB.1
      refine ⟨y, hyf.1, ?_, ?_, ?_⟩
      · intro hpeq
        exact hyne (hinj y hyf.1 q0 hf hpeq)
      · rw [hyf.2, hq0f.2]
      · rw [hyB.2, hq0B.2]
    · rintro ⟨q, hq, hqne, hqsize, hqhash⟩
      have hqnef : q ≠ f := fun h => hqne (by rw [h])
      -- the size bucket of f contains both f and q
      have hsg := self_mem_groupByKey_bucket (fun f => f.size) files f hf
      set B := files.filter (fun y => y.size == f.size) with hB
      have hfB : f ∈ B := (mem_bucket_iff _ files hsg f).mpr ⟨hf, rfl⟩
      have hqB : q ∈ B := (mem_bucket_iff _ files hsg q).mpr ⟨hq, hqsize⟩
      have hlenB : 2 ≤ B.length := two_le_length_of_mem_ne hfB hqB (fun h => hqnef h.symm)
      -- the hash group of f inside B contains both f and q
      have hHG := self_mem_groupByKey_bucket (fun f => f.hash) B f hfB
      set HG := B.filter (fun y => y.hash == f.hash) with hHG2
      have hfHG : f ∈ HG := (mem_bucket_iff _ B hHG f).mpr ⟨hfB, rfl⟩
      have hqHG : q ∈ HG := (mem_bucket_iff _ B hHG q).mpr ⟨hqB, hqhash⟩
      have hlenHG : 2 ≤ HG.length := two_le_length_of_mem_ne hfHG hqHG (fun h => hqnef h.symm)
      refine ⟨DuplicateGroup.mk f.hash f.size (HG.map (fun f => f.path)), ?_, ?_⟩
      · exact (mem_find_duplicates files _).mpr
          ⟨f.size, B, hsg, hlenB, f.hash, HG, hHG, hlenHG, rfl⟩
      · exact List.mem_map.mpr ⟨f, hfHG, rfl⟩
  case hashed =>
    intro f hf
    have hne : files.isEmpty = false := by
      cases files with
      | nil => exact absurd hf (List.not_mem_nil f)
      | cons a l => rfl
    unfold hashedFiles
    simp only [hne, Bool.false_eq_true, if_false, List.mem_flatten, List.mem_map,
      List.mem_filter, decide_eq_true_eq]
    constructor
    · rintro ⟨l, ⟨⟨s, B⟩, ⟨hsg, hlen⟩, rfl⟩, hfB⟩
      have hmem := (mem_bucket_iff _ files hsg f).mp hfB
      rcases (mem_groupByKey _ files s B).mp hsg with ⟨-, rfl⟩
      obtain ⟨-, hfsize⟩ := hmem
      subst hfsize
      simpa using hlen
    · intro hlen
      have hsg := self_mem_groupByKey_bucket (fun f => f.size) files f hf
      refine ⟨files.filter (fun y => y.size == f.size), ⟨⟨f.size, _⟩, ⟨hsg, ?_⟩, rfl⟩, ?_⟩
      · simpa using hlen
      · exact (mem_bucket_iff _ files hsg f).mpr ⟨hf, rfl⟩

/-- Witness for C5 on two same-content 20-byte files. -/
theorem find_duplicates_spec_witness :
    find_duplicates [⟨"/s/a.jpg", 20, "h"⟩, ⟨"/s/b.jpg", 20, "h"⟩] =
      [⟨"h", 20, ["/s/a.jpg", "/s/b.jpg"]⟩] ∧
    ((∃ g ∈ find_duplicates [SFile.mk "/s/a.jpg" 20 "h", ⟨"/s/b.jpg", 20, "h"⟩],
        "/s/a.jpg" ∈ g.paths) ↔
     (∃ q ∈ [SFile.mk "/s/a.jpg" 20 "h", ⟨"/s/b.jpg", 20, "h"⟩],
        q.path ≠ "/s/a.jpg" ∧ q.size = 20 ∧ q.hash = "h")) := by
  constructor
  · decide
  · exact ((find_duplicates_spec [⟨"/s/a.jpg", 20, "h"⟩, ⟨"/s/b.jpg", 20, "h"⟩]
      (by decide)).2.2.2.1 ⟨"/s/a.jpg", 20, "h"⟩ (by decide))

theorem rebuildGo_ok (target : String) (tree : List TreeEntry) (st0 : DBState) (n0 : Nat)
    (hfresh : ∀ e ∈ visibleFiles tree, ∀ r ∈ st0.files,
       r.target = target → r.filePath ≠ pathStr e.parts)
    (hnodup : ((visibleFiles tree).map (fun e => pathStr e.parts)).Nodup) :
    rebuildGo target tree st0 n0 = .ok
      ({ st0 with files := st0.files ++ (visibleFiles tree).map (rebuildRec target) },
       n0 + (visibleFiles tree).length) := by
  induction tree generalizing st0 n0 with
  | nil => simp [rebuildGo, visibleFiles]
  | cons e rest ih =>
    by_cases hvis : (e.isFile && !(isHidden e.parts)) = true
    · have hvisCons : visibleFiles (e :: rest) = e :: visibleFiles rest := by
        simp [visibleFiles, List.filter_cons, hvis]
      rw [hvisCons] at hfresh hnodup
      have hins : HashDB.insert st0 (rebuildRec target e) =
          .ok { st0 with files := st0.files ++ [rebuildRec target e] } := by
        unfold HashDB.insert
        have : st0.files.any (fun q =>
            q.target == (rebuildRec target e).target &&
            q.hash == (rebuildRec target e).hash &&
            q.filePath == (rebuildRec target e).filePath) = false := by
          rw [List.any_eq_false]
          intro r hr hcontra
          simp only [rebuildRec, Bool.and_eq_true, beq_iff_eq] at hcontra
          exact hfresh e (List.mem_cons_self e _) r hr hcontra.1.1 hcontra.2
        simp [this]
      simp only [rebuildGo, hvis, if_true, hins]
      have hfresh2 : ∀ e2 ∈ visibleFiles rest,
          ∀ r ∈ (st0.files ++ [rebuildRec target e]),
          r.target = target → r.filePath ≠ pathStr e2.parts := by
        intro e2 he2 r hr htgt
        rcases List.mem_append.mp hr with hold | hnew
        · exact hfresh e2 (List.mem_cons_of_mem e he2) r hold htgt
        · rcases List.mem_singleton.mp hnew with rfl
          simp only [rebuildRec]
          intro heq
          have hne : pathStr e.parts ∉ (visibleFiles rest).map (fun e => pathStr e.parts) :=
            (List.nodup_cons.mp hnodup).1
          exact hne (heq ▸ List.mem_map.mpr ⟨e2, he2, rfl⟩)
      have := ih ({ st0 with files := st0.files ++ [rebuildRec target e] }) (n0 + 1)
        hfresh2 (List.nodup_cons.mp hnodup).2
      rw [this, hvisCons]
      simp only [List.map_cons, List.length_cons]
      congr 2
      · simp
      · omega
    · have hvisCons : visibleFiles (e :: rest) = visibleFiles rest := by
        simp only [visibleFiles, List.filter_cons]
        rw [if_neg (by simpa using hvis)]
      rw [hvisCons] at hfresh hnodup
      simp only [rebuildGo, hvis, if_false, Bool.false_eq_true]
      rw [ih st0 n0 hfresh hnodup, hvisCons]

/-- C7: Rebuild: `rebuild(targetDir)` deletes all FileRecords for that target
and regenerates them by walking the target tree and rehashing every file that
is not hidden (no path component starting with a dot), so that FileRecords
afterwards exactly match the current target-tree content; rows of other
targets and all ImportRecords are left unchanged, and the returned count
equals the number of files indexed. -/
theorem rebuild_spec (st : DBState) (target : String) (tree : List TreeEntry)
    (hnodup : ((visibleFiles tree).map (fun e => pathStr e.parts)).Nodup) :
    ∃ st2, rebuild st target tree = .ok (st2, (visibleFiles tree).length) ∧
      st2.files.filter (fun r => r.target == target) =
        (visibleFiles tree).map (rebuildRec target) ∧
      st2.files.filter (fun r => !(r.target == target)) =
        st.files.filter (fun r => !(r.target == target)) ∧
      st2.imports = st.imports ∧
      st2.acoustid = st.acoustid := by
  have hfresh : ∀ e ∈ visibleFiles tree,
      ∀ r ∈ (st.files.filter (fun r => !(r.target == target))),
      r.target = target → r.filePath ≠ pathStr e.parts := by
    intro e he r hr htgt
    have := (List.mem_filter.mp hr).2
    simp [htgt] at this
  refine ⟨DBState.mk
      (st.files.filter (fun r => !(r.target == target)) ++
        (visibleFiles tree).map (rebuildRec target))
      st.imports st.acoustid, ?_, ?_, ?_, rfl, rfl⟩
  · rw [rebuild, rebuildGo_ok target tree _ 0 hfresh hnodup]
    simp
  · rw [List.filter_append]
    have h1 : (st.files.filter (fun r => !(r.target == target))).filter
        (fun r => r.target == target) = [] := by
      rw [List.filter_eq_nil_iff]
      intro r hr
      have := (List.mem_filter.mp hr).2
      simp only [Bool.not_eq_eq_eq_not, Bool.not_true] at this
      simp [this]
    have h2 : ((visibleFiles tree).map (rebuildRec target)).filter
        (fun r => r.target == target) = (visibleFiles tree).map (rebuildRec target) := by
      rw [List.filter_eq_self]
      intro r hr
      rcases List.mem_map.mp hr with ⟨e, -, rfl⟩
      simp [rebuildRec]
    rw [h1, h2, List.nil_append]
  · rw [List.filter_append]
    have h1 : (st.files.filter (fun r => !(r.target == target))).filter
        (fun r => !(r.target == target)) = st.files.filter (fun r => !(r.target == target)) := by
      rw [List.filter_eq_self]
      intro r hr
      exact (List.mem_filter.mp hr).2
    have h2 : ((visibleFiles tree).map (rebuildRec target)).filter
        (fun r => !(r.target == target)) = [] := by
      rw [List.filter_eq_nil_iff]
      intro r hr
      rcases List.mem_map.mp hr with ⟨e, -, rfl⟩
      simp [rebuildRec]
    rw [h1, h2, List.append_nil]

/-- Witness for C7: a tree with one visible file, one hidden file and one
directory, over a store holding a stale row for this target, a row of another
target and an import row. -/
theorem rebuild_spec_witness :
    ∃ st2,
      rebuild ⟨[⟨"T", "hOld", 1, "gone.jpg", none, none⟩,
          ⟨"U", "hU", 2, "u.jpg", none, none⟩],
          [⟨"T", "/s/a.jpg", "hOld", some "gone.jpg"⟩], []⟩
        "T"
        [⟨["2024"], false, "", 0⟩,
         ⟨["2024", "a.jpg"], true, "hA", 5⟩,
         ⟨[".thumbs", "b.jpg"], true, "hB", 6⟩] = .ok (st2, 1) ∧
      st2.files.filter (fun r => r.target == "T") =
        [⟨"T", "hA", 5, "2024/a.jpg", none, none⟩] ∧
      st2.files.filter (fun r => !(r.target == "T")) =
        [⟨"U", "hU", 2, "u.jpg", none, none⟩] ∧
      st2.imports = [⟨"T", "/s/a.jpg", "hOld", some "gone.jpg"⟩] := by
  obtain ⟨st2, hrun, hfiles, hother, himp, -⟩ := rebuild_spec
    ⟨[⟨"T", "hOld", 1, "gone.jpg", none, none⟩, ⟨"U", "hU", 2, "u.jpg", none, none⟩],
        [⟨"T", "/s/a.jpg", "hOld", some "gone.jpg"⟩], []⟩
    "T"
    [⟨["2024"], false, "", 0⟩,
     ⟨["2024", "a.jpg"], true, "hA", 5⟩,
     ⟨[".thumbs", "b.jpg"], true, "hB", 6⟩]
    (by decide)
  refine ⟨st2, ?_, ?_, ?_, ?_⟩
  · exact hrun
  · rw [hfiles]; decide
  · rw [hother]; decide
  · rw [himp]

/-- C9: recordImport is insert-if-absent: when an imports row for
(target, source path) already exists, a `record_import` call is a no-op
regardless of the hash and relative-path arguments, so the stored record
keeps its first-written values; when none exists, the call appends exactly
the given row; and only `update_import` overwrites the stored hash and
relative path in place. -/
theorem record_import_insert_if_absent
    (st : DBState) (t s : String) :
    (∀ r, HashDB.get_import st t s = some r →
      ∀ h p, HashDB.record_import st t s h p = st) ∧
    (HashDB.get_import st t s = none →
      ∀ h p, HashDB.record_import st t s h p =
        { st with imports := st.imports ++ [⟨t, s, h, p⟩] }) ∧
    (∀ h p, (HashDB.update_import st t s h p).imports =
      st.imports.map (fun r =>
        if r.target == t && r.sourcePath == s then
          { r with hash := h, filePath := p }
        else r)) := by
  refine ⟨?_, ?_, ?_⟩
  · intro r hr h p
    have hmem : st.imports.any (fun r => r.target == t && r.sourcePath == s) = true := by
      have := List.find?_some hr
      have hmem' : r ∈ st.imports := List.mem_of_find?_eq_some hr
      exact List.any_eq_true.mpr ⟨r, hmem', this⟩
    simp [HashDB.record_import, hmem]
  · intro hnone h p
    have hmem : st.imports.any (fun r => r.target == t && r.sourcePath == s) = false := by
      rw [List.any_eq_false]
      intro r hr
      intro hcontra
      have : HashDB.get_import st t s ≠ none := by
        simp only [HashDB.get_import, ne_eq, List.find?_eq_none, not_forall]
        exact ⟨r, hr, by simp [hcontra]⟩
      exact this hnone
    simp [HashDB.record_import, hmem]
  · intro h p
    rfl

/-- Witness for C9 at a concrete store. -/
theorem record_import_insert_if_absent_witness :
    (HashDB.record_import ⟨[], [⟨"T", "/s/a.jpg", "h0", some "x.jpg"⟩], []⟩
        "T" "/s/a.jpg" "hNEW" (some "other.jpg") =
      ⟨[], [⟨"T", "/s/a.jpg", "h0", some "x.jpg"⟩], []⟩) ∧
    (HashDB.record_import ⟨[], [], []⟩ "T" "/s/b.jpg" "h1" none =
      ⟨[], [⟨"T", "/s/b.jpg", "h1", none⟩], []⟩) := by
  constructor
  · exact (record_import_insert_if_absent ⟨[], [⟨"T", "/s/a.jpg", "h0", some "x.jpg"⟩], []⟩
      "T" "/s/a.jpg").1 ⟨"T", "/s/a.jpg", "h0", some "x.jpg"⟩ (by decide) "hNEW" (some "other.jpg")
  · exact (record_import_insert_if_absent ⟨[], [], []⟩ "T" "/s/b.jpg").2.1 (by decide)
      "h1" none

/-- C10: implicit hash-presence precedence: in the per-candidate decision
the hash-exists check runs before the import-record check, so a candidate
whose current content hash already exists anywhere in the target index is
skipped as already-present even when an ImportRecord exists for that source
path with a different hash; the batch leaves the world — including that
stale ImportRecord, still referencing the old hash — unchanged, and the
update path is never entered. -/
theorem hash_presence_precedence (env : Env) (args : Args) (w : World)
    (c : Candidate) (r : ImportRec)
    (hhash : HashDB.hash_exists w.db (baseFor args c) c.hash = true)
    (himp : HashDB.get_import w.db (baseFor args c) c.path = some r)
    (hne : r.hash ≠ c.hash) :
    pvDecide env args w c = .skip .alreadyPresent ∧
    runPVBatch env args [c] w = (w, .ok ⟨0, 1, [(c, .skip .alreadyPresent)]⟩) ∧
    HashDB.get_import w.db (baseFor args c) c.path = some r := by
  have hdec : pvDecide env args w c = .skip .alreadyPresent := by
    unfold pvDecide decideCandidate
    simp [hhash]
  refine ⟨hdec, ?_, himp⟩
  unfold runPVBatch
  simp [pvDecisions, hdec, toImportEntries, countSkips, List.filter]

/-- Witness for C10 at the concrete scenario. -/
theorem hash_presence_precedence_witness :
    pvDecide demoEnv demoArgs c10world c10cand = .skip .alreadyPresent ∧
    runPVBatch demoEnv demoArgs [c10cand] c10world =
      (c10world, .ok ⟨0, 1, [(c10cand, .skip .alreadyPresent)]⟩) ∧
    HashDB.get_import c10world.db (baseFor demoArgs c10cand) c10cand.path =
      some ⟨"/t/photos", "/s/a.jpg", "h1", some "x/a.jpg"⟩ :=
  hash_presence_precedence demoEnv demoArgs c10world c10cand
    ⟨"/t/photos", "/s/a.jpg", "h1", some "x/a.jpg"⟩
    (by decide) (by decide) (by decide)

/-- C2: the confirmed-update path of `_import_photo_video_batch` overwrites
the target file in place and then calls `db.delete_by_hash(old_hash)`, a
method `HashDB` does not define: Python raises AttributeError, so the stale
FileRecord is never deleted, no new FileRecord is inserted, the ImportRecord
keeps the old hash, and the batch aborts as a failure — evaluated here at a
concrete update-confirmed input. -/
theorem update_path_attribute_error :
    runPVBatch demoEnv { demoArgs with update := true } [c2cand] c2world =
      ({ c2world with fs := [⟨"/t/photos/2024/photo.jpg", "h2", 20, 7⟩] },
       .error .attrErrorDeleteByHash) ∧
    (runPVBatch demoEnv { demoArgs with update := true } [c2cand] c2world).1.db =
      c2world.db := by
  constructor
  · decide
  · decide

/-- C1: the spec says that among same-content files in one batch a single
canonical copy is selected by earliest modification time and imported once.
The code does neither: both members of a concrete fresh same-hash pair (the
second with the later mtime) are decided Import-New, and the batch then dies
in the `resolved_new` loop — `suggest_dirname(meta, place_name=...,
source_root=args.source)` at importer.py line 226 raises TypeError because
`organizer.suggest_dirname` accepts no `source_root` keyword — before any
prompt, copy or insert, so neither file is copied, no FileRecord and no
ImportRecord is written, the world is returned unchanged, and the chunk
surfaces as a failure. -/
theorem intra_batch_duplicates_type_error :
    c1candA.hash = c1candB.hash ∧ c1candA.mtime < c1candB.mtime ∧
    pvDecide demoEnv demoArgs emptyWorld c1candA = PVDecision.importNew ∧
    pvDecide demoEnv demoArgs emptyWorld c1candB = PVDecision.importNew ∧
    runPVBatch demoEnv demoArgs [c1candA, c1candB] emptyWorld =
      (emptyWorld, .error .typeErrorSourceRoot) := by
  refine ⟨?_, ?_, ?_, ?_, ?_⟩ <;> decide

theorem sum_map_ite_eq [DecidableEq β] (b : β) (m : Nat) :
    ∀ (ks : List β), ks.Nodup →
      (ks.map (fun k => if b = k then m else 0)).sum = if b ∈ ks then m else 0
  | [], _ => by simp
  | k :: ks, hnd => by
    have ih := sum_map_ite_eq b m ks (List.nodup_cons.mp hnd).2
    by_cases hbk : b = k
    · subst hbk
      have hnmem : b ∉ ks := (List.nodup_cons.mp hnd).1
      simp [ih, hnmem]
    · simp [hbk, ih]

theorem count_bucket [DecidableEq β] [DecidableEq α] (key : α → β) (xs : List α)
    (a : α) (k : β) :
    (xs.filter (fun y => key y == k)).count a =
      if key a = k then xs.count a else 0 := by
  by_cases h : key a = k
  · rw [if_pos h, List.count_filter (by simp [h])]
  · rw [if_neg h, List.count_eq_zero]
    intro hmem
    exact h (by simpa using (List.mem_filter.mp hmem).2)

/-- The buckets of `groupByKey` jointly contain exactly the input elements. -/
theorem flatten_groupByKey_perm [DecidableEq β] [DecidableEq α] (key : α → β)
    (xs : List α) : (((groupByKey key xs).map Prod.snd).flatten).Perm xs := by
  rw [List.perm_iff_count]
  intro a
  rw [List.count_flatten]
  unfold groupByKey
  rw [List.map_map, List.map_map]
  rw [show ((List.count a ∘ Prod.snd) ∘ fun k => (k, List.filter (fun y => key y == k) xs)) =
    (fun k => (List.filter (fun y => key y == k) xs).count a) from rfl]
  have hmap : (keysOf key xs).map
      (fun k => (List.filter (fun y => key y == k) xs).count a) =
      (keysOf key xs).map (fun k => if key a = k then xs.count a else 0) :=
    List.map_congr_left (fun k _ => count_bucket key xs a k)
  rw [hmap, sum_map_ite_eq (key a) (xs.count a) _ (nodup_keysOf key xs)]
  by_cases hmem : key a ∈ keysOf key xs
  · simp [hmem]
  · have hax : a ∉ xs := fun hax => hmem ((mem_keysOf key xs (key a)).mpr ⟨a, hax, rfl⟩)
    simp [hmem, List.count_eq_zero.mpr hax]

theorem perm_insSorted (le : α → α → Bool) (x : α) :
    ∀ l, (insSorted le x l).Perm (x :: l)
  | [] => by simp [insSorted]
  | y :: ys => by
    by_cases h : le x y = true
    · simp [insSorted, h]
    · simp only [insSorted, h, Bool.false_eq_true, if_false]
      exact ((perm_insSorted le x ys).cons y).trans (List.Perm.swap x y ys)

theorem perm_sortByKey (le : α → α → Bool) : ∀ l, (sortByKey le l).Perm l
  | [] => .refl _
  | x :: xs => by
    simp only [sortByKey]
    exact (perm_insSorted le x _).trans ((perm_sortByKey le xs).cons x)

theorem chain_insSorted {le : α → α → Bool}
    (htot : ∀ a b, (le a b || le b a) = true) (x : α) :
    ∀ l, List.Chain' (fun a b => le a b = true) l →
      List.Chain' (fun a b => le a b = true) (insSorted le x l) := by
  intro l
  induction l with
  | nil => intro _; simp [insSorted]
  | cons y ys ih =>
    intro h
    by_cases hxy : le x y = true
    · simp only [insSorted, hxy, if_true]
      exact List.Chain'.cons hxy h
    · have hyx : le y x = true := by
        have := htot x y
        simp [hxy] at this
        exact this
      simp only [insSorted, hxy, Bool.false_eq_true, if_false]
      cases ys with
      | nil => simp [insSorted, hyx]
      | cons z zs =>
        by_cases hxz : le x z = true
        · simp only [insSorted, hxz, if_true]
          exact List.Chain'.cons hyx (List.Chain'.cons hxz (List.Chain'.tail h))
        · have hchain := ih (List.Chain'.tail h)
          simp only [insSorted, hxz, Bool.false_eq_true, if_false] at hchain ⊢
          exact List.Chain'.cons (List.chain'_cons.mp h).1 hchain

theorem chain_sortByKey {le : α → α → Bool}
    (htot : ∀ a b, (le a b || le b a) = true) :
    ∀ l, List.Chain' (fun a b => le a b = true) (sortByKey le l)
  | [] => by simp [sortByKey]
  | x :: xs => by
    simp only [sortByKey]
    exact chain_insSorted htot x _ (chain_sortByKey htot xs)

theorem strListLt_connex :
    ∀ (a b : List String), strListLt a b = true ∨ strListLt b a = true ∨ a = b
  | [], [] => Or.inr (Or.inr rfl)
  | [], _ :: _ => Or.inl rfl
  | _ :: _, [] => Or.inr (Or.inl rfl)
  | x :: xs, y :: ys => by
    rcases lt_trichotomy x y with h | h | h
    · left
      simp [strListLt, h]
    · subst h
      rcases strListLt_connex xs ys with h2 | h2 | h2
      · left
        simp [strListLt, h2, lt_irrefl]
      · right
        left
        simp [strListLt, h2, lt_irrefl]
      · subst h2
        right
        right
        rfl
    · right
      left
      simp [strListLt, h, not_lt.mpr h.le]

theorem dirKeyLe_total (a b : List String) : (dirKeyLe a b || dirKeyLe b a) = true := by
  unfold dirKeyLe
  by_cases hlen : a.length = b.length
  · have h1 : (a.length == b.length) = true := beq_iff_eq.mpr hlen
    have h2 : (b.length == a.length) = true := beq_iff_eq.mpr hlen.symm
    rw [h1, h2, if_pos rfl, if_pos rfl]
    rcases strListLt_connex a b with h | h | h
    · simp [h]
    · simp [h]
    · subst h
      simp
  · have h1 : (a.length == b.length) = false := beq_eq_false_iff_ne.mpr (by simpa using hlen)
    have h2 : (b.length == a.length) = false :=
      beq_eq_false_iff_ne.mpr (by simp; omega)
    rw [h1, h2]
    simp only [Bool.false_eq_true, if_false]
    rcases Nat.lt_or_ge a.length b.length with h | h
    · simp
      omega
    · simp
      omega

theorem chunksGo_flatten (bs : Nat) (hbs : 0 < bs) :
    ∀ (fuel : Nat) (l : List α), l.length ≤ fuel → (chunksGo bs fuel l).flatten = l
  | fuel, [], _ => by cases fuel <;> simp [chunksGo]
  | 0, x :: xs, h => by simp at h
  | fuel+1, x :: xs, h => by
    simp only [chunksGo, List.flatten_cons]
    rw [chunksGo_flatten bs hbs fuel ((x :: xs).drop bs)
      (by simp only [List.length_drop, List.length_cons] at h ⊢; omega)]
    exact List.take_append_drop bs (x :: xs)

theorem flatten_chunksOf (bs : Nat) (hbs : 0 < bs) (l : List α) :
    (chunksOf bs l).flatten = l :=
  chunksGo_flatten bs hbs l.length l le_rfl

theorem chunksGo_length_le (bs : Nat) :
    ∀ (fuel : Nat) (l : List α), ∀ ch ∈ chunksGo bs fuel l, ch.length ≤ bs
  | fuel, [] => by cases fuel <;> simp [chunksGo]
  | 0, x :: xs => by simp [chunksGo]
  | fuel+1, x :: xs => by
    intro ch hch
    rcases List.mem_cons.mp hch with rfl | hch
    · exact List.length_take_le bs (x :: xs)
    · exact chunksGo_length_le bs fuel _ ch hch

theorem chunksGo_map_length (bs : Nat) :
    ∀ (fuel : Nat) (l : List α),
      (chunksGo bs fuel l).map List.length = lenChunksGo bs fuel l.length
  | fuel, [] => by cases fuel <;> simp [chunksGo, lenChunksGo]
  | 0, x :: xs => by simp [chunksGo, lenChunksGo]
  | fuel+1, x :: xs => by
    simp only [chunksGo, List.map_cons, List.length_cons, lenChunksGo]
    rw [chunksGo_map_length bs fuel ((x :: xs).drop bs)]
    simp [List.length_take, List.length_drop]

theorem map_length_chunksOf (bs : Nat) (l : List α) :
    (chunksOf bs l).map List.length = lenChunks bs l.length :=
  chunksGo_map_length bs l.length l

theorem mem_iterBatches (gs : List (List String × List Candidate)) (bs : Nat)
    (d : List String) (ch : List Candidate) :
    (d, ch) ∈ iterBatches gs bs ↔ ∃ g ∈ gs, d = g.1 ∧ ch ∈ chunksOf bs g.2 := by
  unfold iterBatches
  rw [List.mem_flatten]
  constructor
  · rintro ⟨l, hl, hmem⟩
    rcases List.mem_map.mp hl with ⟨g, hg, rfl⟩
    rcases List.mem_map.mp hmem with ⟨c2, hc2, heq⟩
    rcases Prod.mk.injEq .. ▸ heq with ⟨rfl, rfl⟩
    exact ⟨g, hg, (Prod.mk.injEq .. ▸ heq).1.symm ▸ rfl, by
      have := (Prod.mk.injEq .. ▸ heq).2
      rw [← this]; exact hc2⟩
  · rintro ⟨g, hg, rfl, hch⟩
    exact ⟨(chunksOf bs g.2).map (fun c2 => (g.1, c2)),
      List.mem_map.mpr ⟨g, hg, rfl⟩, List.mem_map.mpr ⟨ch, hch, rfl⟩⟩

/-- C8: Grouping and batching: candidates are partitioned by immediate
source directory relative to the scan root (each group is exactly the
candidates with that parent, jointly a permutation of the input); the groups
are ordered deepest-path-first (most path components first) and
lexicographically among equal depths; each group is sliced into fixed-size
chunks covering the group in order with every chunk at most the batch size;
every photo/video batch holds only candidates of its directory; a 250-file
directory with the 100-file photo/video chunk size yields exactly chunks of
100, 100 and 50 files in that order; and the audio chunk size (10) is
smaller than the photo/video chunk size (100). -/
theorem grouping_batching_spec (files : List Candidate) :
    (∀ d g, (d, g) ∈ groupBySourceDir files →
       g = files.filter (fun c => c.relParent == d)) ∧
    (((groupBySourceDir files).map Prod.snd).flatten).Perm files ∧
    List.Chain' (fun a b => dirKeyLe a.1 b.1 = true) (groupBySourceDir files) ∧
    (∀ bs : Nat, 0 < bs → ∀ g : List Candidate,
       (chunksOf bs g).flatten = g ∧ ∀ ch ∈ chunksOf bs g, ch.length ≤ bs) ∧
    (∀ d ch, (d, ch) ∈ iterBatches (groupBySourceDir files) photoVideoBatchSize →
       ∀ c ∈ ch, c.relParent = d) ∧
    (∀ l : List Candidate, l.length = 250 →
       (chunksOf photoVideoBatchSize l).map List.length = [100, 100, 50]) ∧
    audioBatchSize < photoVideoBatchSize := by
  have hperm : (groupBySourceDir files).Perm (groupByKey (fun c => c.relParent) files) :=
    perm_sortByKey _ _
  have hmemgk : ∀ d g, (d, g) ∈ groupBySourceDir files →
      g = files.filter (fun c => c.relParent == d) := by
    intro d g hdg
    have hmem := hperm.mem_iff.mp hdg
    rw [((mem_groupByKey (fun c => c.relParent) files d g).mp hmem).2]
    apply List.filter_congr
    intro c _
    by_cases hcd : c.relParent = d
    · simp [hcd]
    · simp [hcd]
  refine ⟨hmemgk, ?_, ?_, ?_, ?_, ?_, by decide⟩
  · exact ((hperm.map Prod.snd).flatten).trans
      (flatten_groupByKey_perm (fun c => c.relParent) files)
  · exact chain_sortByKey (fun a b => dirKeyLe_total a.1 b.1) _
  · intro bs hbs g
    exact ⟨flatten_chunksOf bs hbs g, chunksGo_length_le bs g.length g⟩
  · intro d ch hmem c hc
    rcases (mem_iterBatches _ _ _ _).mp hmem with ⟨g, hg, rfl, hch⟩
    have hsub : c ∈ g.2 := by
      rw [← flatten_chunksOf photoVideoBatchSize (by decide) g.2]
      exact List.mem_flatten.mpr ⟨ch, hch, hc⟩
    have := hmemgk g.1 g.2 (by rcases g with ⟨d2, g2⟩; exact hg)
    rw [this] at hsub
    simpa using (List.mem_filter.mp hsub).2
  · intro l hlen
    rw [map_length_chunksOf, hlen]
    decide

/-- Witness for C8: the concrete 250-file directory slices into chunks of
100/100/50 with the photo/video batch size, which exceeds the audio one. -/
theorem grouping_batching_spec_witness :
    (chunksOf photoVideoBatchSize c8list).map List.length = [100, 100, 50] ∧
    audioBatchSize < photoVideoBatchSize :=
  ⟨(grouping_batching_spec []).2.2.2.2.2.1 c8list (by simp [c8list]),
   (grouping_batching_spec []).2.2.2.2.2.2⟩

theorem worldFrameEq_refl (a : World) : WorldFrameEq a a :=
  ⟨rfl, rfl, rfl, rfl, rfl, rfl⟩

theorem worldFrameEq_trans {a b c : World} (h1 : WorldFrameEq a b)
    (h2 : WorldFrameEq b c) : WorldFrameEq a c := by
  obtain ⟨h1a, h1b, h1c, h1d, h1e, h1f⟩ := h1
  obtain ⟨h2a, h2b, h2c, h2d, h2e, h2f⟩ := h2
  exact ⟨h1a.trans h2a, h1b.trans h2b, h1c.trans h2c, h1d.trans h2d,
    h1e.trans h2e, h1f.trans h2f⟩

/-- In dry-run mode a photo/video batch never touches the world; it reports
its decision list when no new file is involved, and raises the
suggest_dirname TypeError (importer.py line 170) as soon as its listing
reaches a new entry. -/
theorem runPVBatch_dry (env : Env) (args : Args) (hdry : args.dryRun = true)
    (batch : List Candidate) (wx : World) :
    (runPVBatch env args batch wx).1 = wx ∧
    ((toImportEntries (pvDecisions env args wx batch)).any
        (fun e => !e.oldFilePath.isSome) = false →
      runPVBatch env args batch wx = (wx, .ok
        ⟨(toImportEntries (pvDecisions env args wx batch)).length,
         countSkips (pvDecisions env args wx batch),
         pvDecisions env args wx batch⟩)) ∧
    ((toImportEntries (pvDecisions env args wx batch)).any
        (fun e => !e.oldFilePath.isSome) = true →
      runPVBatch env args batch wx = (wx, .error .typeErrorSourceRoot)) := by
  unfold runPVBatch
  by_cases hE : (toImportEntries (pvDecisions env args wx batch)).isEmpty = true
  · rw [if_pos hE]
    have hnil := List.isEmpty_iff.mp hE
    refine ⟨rfl, fun _ => ?_, fun habs => ?_⟩
    · rw [hnil]
      rfl
    · rw [hnil] at habs
      simp at habs
  · rw [if_neg hE, hdry, if_pos rfl]
    by_cases hany : (toImportEntries (pvDecisions env args wx batch)).any
        (fun e => !e.oldFilePath.isSome) = true
    · rw [if_pos hany]
      refine ⟨rfl, fun hno => ?_, fun _ => rfl⟩
      rw [hno] at hany
      cases hany
    · rw [if_neg hany]
      refine ⟨rfl, fun _ => rfl, fun hyes => ?_⟩
      exact absurd hyes hany

theorem worldStoreEq_refl (a : World) : WorldStoreEq a a :=
  ⟨rfl, rfl, rfl, rfl, rfl⟩

theorem worldStoreEq_trans {a b c : World} (h1 : WorldStoreEq a b)
    (h2 : WorldStoreEq b c) : WorldStoreEq a c := by
  obtain ⟨h1a, h1b, h1c, h1d, h1e⟩ := h1
  obtain ⟨h2a, h2b, h2c, h2d, h2e⟩ := h2
  exact ⟨h1a.trans h2a, h1b.trans h2b, h1c.trans h2c, h1d.trans h2d, h1e.trans h2e⟩

theorem worldFrameEq_store {a b : World} (h : WorldFrameEq a b) :
    WorldStoreEq a b := by
  obtain ⟨h1, h2, h3, h4, h5, h6⟩ := h
  exact ⟨h1, h2, h3, h5, h6⟩

/-- Appending a failure-log entry touches nothing a dry run protects. -/
theorem logFailure_store (env : Env) (w : World) (d : List String) (mt : String)
    (b : List Candidate) (err : DBError) :
    WorldStoreEq (logFailure env w d mt b err) w :=
  ⟨rfl, rfl, rfl, rfl, rfl⟩

theorem processPVBatches_dry (env : Env) (args : Args) (hdry : args.dryRun = true) :
    ∀ (batches : List (List String × List Candidate)) (wx : World) (t : RunTotals),
      WorldStoreEq (processPVBatches env args batches wx t).1 wx
  | [], wx, t => worldStoreEq_refl wx
  | (d, batch) :: rest, wx, t => by
    rw [processPVBatches.eq_def]
    dsimp only
    rcases hr : runPVBatch env args batch wx with ⟨w2, res⟩
    have hw : w2 = wx := by
      have h1 := (runPVBatch_dry env args hdry batch wx).1
      rw [hr] at h1
      exact h1
    subst hw
    cases res with
    | ok out =>
      dsimp only
      exact processPVBatches_dry env args hdry rest w2 _
    | error err =>
      dsimp only
      exact worldStoreEq_trans
        (processPVBatches_dry env args hdry rest _ _)
        (logFailure_store env w2 d "photo_video" batch err)

theorem importPhotoVideo_dry (env : Env) (args : Args) (hdry : args.dryRun = true)
    (files : List Candidate) (w : World) :
    WorldStoreEq (importPhotoVideo env args files w).1 w := by
  unfold importPhotoVideo
  by_cases hE : files.isEmpty = true
  · rw [if_pos hE]
    exact worldStoreEq_refl w
  · rw [if_neg hE, hdry, if_pos rfl]
    exact processPVBatches_dry env args hdry _ w ⟨0, 0, 0⟩

/-- `identify_audio` can write the identification cache but nothing else. -/
theorem identify_audio_frame (env : Env) (p : String) (m : AudioMetadata)
    (k : Option String) (h : String) (db : DBState) :
    (identify_audio env p m k h db).1.files = db.files ∧
    (identify_audio env p m k h db).1.imports = db.imports := by
  unfold identify_audio
  cases k with
  | none => exact ⟨rfl, rfl⟩
  | some k0 =>
    cases HashDB.get_acoustid_cache db h with
    | some cached => exact ⟨rfl, rfl⟩
    | none =>
      cases env.fingerprint p with
      | none => exact ⟨rfl, rfl⟩
      | some fp =>
        obtain ⟨dur, f⟩ := fp
        cases hmeta : (match env.lookupAcoustid f dur with
          | none => none
          | some r => env.lookupMusicbrainz r : Option AudioMetadata) with
        | none => simp [hmeta, HashDB.store_acoustid_cache]
        | some lm => simp [hmeta, HashDB.store_acoustid_cache]

/-- Phase A of an audio batch can write the identification cache but leaves
filesystem, directories, failure log, FileRecords and ImportRecords alone. -/
theorem audioPhaseA_frame (env : Env) (args : Args) (key : Option String) :
    ∀ (batch : List Candidate) (w : World) (mm : String → Option AudioMetadata)
      (sk : Nat) (ti : List ToImportEntry),
      WorldFrameEq (audioPhaseA env args key batch w mm sk ti).1 w
  | [], w, mm, sk, ti => worldFrameEq_refl w
  | f :: rest, w, mm, sk, ti => by
    have hstep : ∀ (w1 : World) (mm1 : String → Option AudioMetadata),
        WorldFrameEq w1 w →
        WorldFrameEq ((match decideCandidate env args w1 args.audioTarget f with
          | .skip _ => audioPhaseA env args key rest w1 mm1 (sk + 1) ti
          | .importNew =>
            audioPhaseA env args key rest w1 mm1 sk (ti ++ [ToImportEntry.mk f none none])
          | .importUpdate oh op =>
            audioPhaseA env args key rest w1 mm1 sk
              (ti ++ [ToImportEntry.mk f (some oh) op])).1) w := by
      intro w1 mm1 hw1
      cases decideCandidate env args w1 args.audioTarget f with
      | skip r => exact worldFrameEq_trans (audioPhaseA_frame env args key rest w1 mm1 _ _) hw1
      | importNew =>
        exact worldFrameEq_trans (audioPhaseA_frame env args key rest w1 mm1 _ _) hw1
      | importUpdate oh op =>
        exact worldFrameEq_trans (audioPhaseA_frame env args key rest w1 mm1 _ _) hw1
    rw [audioPhaseA.eq_def]
    dsimp only
    cases key with
    | none =>
      dsimp only
      exact hstep w mm (worldFrameEq_refl w)
    | some k =>
      cases hmf : mm f.path with
      | none =>
        dsimp only
        exact hstep w mm (worldFrameEq_refl w)
      | some m =>
        dsimp only
        have hid := identify_audio_frame env f.path m (some k) f.hash w.db
        exact hstep { w with db := (identify_audio env f.path m (some k) f.hash w.db).1 }
          (fun p => if p == f.path then
            some (identify_audio env f.path m (some k) f.hash w.db).2 else mm p)
          ⟨rfl, rfl, rfl, rfl, hid.1, hid.2⟩

/-- In dry-run mode an audio batch succeeds and leaves everything but the
identification cache unchanged. -/
theorem runAudioBatch_dry (env : Env) (args : Args) (key : Option String)
    (hdry : args.dryRun = true) (batch : List Candidate) (wx : World) :
    (∃ out, (runAudioBatch env args key batch wx).2 = .ok out) ∧
    WorldFrameEq (runAudioBatch env args key batch wx).1 wx := by
  unfold runAudioBatch
  have hframe := audioPhaseA_frame env args key batch wx (fun p => env.audioMetaOf p) 0 []
  by_cases hE : ((audioPhaseA env args key batch wx (fun p => env.audioMetaOf p) 0
      []).2.2.2).isEmpty = true
  · rw [if_pos hE]
    exact ⟨⟨_, rfl⟩, hframe⟩
  · rw [if_neg hE, hdry, if_pos rfl]
    exact ⟨⟨_, rfl⟩, hframe⟩

theorem processAudioBatches_dry (env : Env) (args : Args) (key : Option String)
    (hdry : args.dryRun = true) :
    ∀ (batches : List (List String × List Candidate)) (wx : World) (t : RunTotals),
      WorldFrameEq (processAudioBatches env args key batches wx t).1 wx ∧
      (processAudioBatches env args key batches wx t).2.failures = t.failures
  | [], wx, t => ⟨worldFrameEq_refl wx, rfl⟩
  | (d, batch) :: rest, wx, t => by
    obtain ⟨⟨out, hout⟩, hframe⟩ := runAudioBatch_dry env args key hdry batch wx
    rcases hr : runAudioBatch env args key batch wx with ⟨w2, res⟩
    rw [hr] at hout hframe
    simp only at hout hframe
    subst hout
    rw [processAudioBatches, hr]
    obtain ⟨hf2, hfail2⟩ := processAudioBatches_dry env args key hdry rest w2 _
    exact ⟨worldFrameEq_trans hf2 hframe, hfail2⟩

theorem importAudio_dry (env : Env) (args : Args) (hdry : args.dryRun = true)
    (files : List Candidate) (w : World) :
    WorldFrameEq (importAudio env args files w).1 w ∧
    (importAudio env args files w).2.failures = 0 := by
  unfold importAudio
  by_cases hE : files.isEmpty = true
  · simp only [hE, if_pos rfl]
    exact ⟨worldFrameEq_refl w, rfl⟩
  · rw [if_neg hE, hdry, if_pos rfl]
    exact processAudioBatches_dry env args _ hdry _ w ⟨0, 0, 0⟩

/-- C3 (amended): with dry-run on, one full run performs no filesystem
mutation, no directory creation, no move-mode source removal, and writes no
FileRecord and no ImportRecord; per-candidate decisions do not depend on the
dry-run flag; a dry photo/video batch never mutates the world, and when it
involves no new file it reports exactly the decision list a real run would
compute against the same state.  However — unlike the original claim —
(a) audio identification, when enabled, may still write
identification-cache entries during a dry run, and (b) a dry photo/video
chunk whose to-import list reaches a new file raises the suggest_dirname
source_root TypeError while building its listing (importer.py line 170), so
a dry run can report failed chunks and append failure-log entries. -/
theorem dry_run_spec (env : Env) (args : Args) (pv audio : List Candidate)
    (w : World) (hdry : args.dryRun = true) :
    WorldStoreEq (runImport env args pv audio w).1 w ∧
    (∀ (d : Bool) (wx : World) (c : Candidate),
       pvDecide env { args with dryRun := d } wx c = pvDecide env args wx c) ∧
    (∀ (batch : List Candidate) (wx : World),
       (runPVBatch env args batch wx).1 = wx) ∧
    (∀ (batch : List Candidate) (wx : World),
       (toImportEntries (pvDecisions env args wx batch)).any
           (fun e => !e.oldFilePath.isSome) = false →
       runPVBatch env args batch wx = (wx, .ok
         ⟨(toImportEntries (pvDecisions env args wx batch)).length,
          countSkips (pvDecisions env args wx batch),
          pvDecisions env args wx batch⟩)) ∧
    (∀ (batch : List Candidate) (wx : World),
       (toImportEntries (pvDecisions env args wx batch)).any
           (fun e => !e.oldFilePath.isSome) = true →
       runPVBatch env args batch wx = (wx, .error .typeErrorSourceRoot)) := by
  have hpv := importPhotoVideo_dry env args hdry pv w
  refine ⟨?_, fun d wx c => rfl,
    fun batch wx => (runPVBatch_dry env args hdry batch wx).1,
    fun batch wx => (runPVBatch_dry env args hdry batch wx).2.1,
    fun batch wx => (runPVBatch_dry env args hdry batch wx).2.2⟩
  unfold runImport
  dsimp only
  refine worldStoreEq_trans ?_ hpv
  exact worldFrameEq_store
    (importAudio_dry env args hdry audio (importPhotoVideo env args pv w).1).1

/-- C3 (counterexample): a dry run with audio identification enabled writes
an identification-cache entry — the original claim said a dry run performs
no index mutation whatsoever, including identification-cache writes. -/
theorem dry_run_cache_write_counterexample :
    c3args.dryRun = true ∧
    (importAudio demoEnv c3args [c3audioCand] emptyWorld).1.db.acoustid ≠ [] := by
  constructor
  · rfl
  · decide

/-- Witness for the amended C3 at a concrete dry run over the empty world:
the persistent stores stay untouched even though the photo/video chunk (a
new file) fails with the TypeError. -/
theorem dry_run_spec_witness :
    WorldStoreEq (runImport demoEnv c3args [c1candA] [c3audioCand] emptyWorld).1
      emptyWorld ∧
    runPVBatch demoEnv c3args [c1candA] emptyWorld =
      (emptyWorld, .error .typeErrorSourceRoot) :=
  ⟨(dry_run_spec demoEnv c3args [c1candA] [c3audioCand] emptyWorld rfl).1,
   (dry_run_spec demoEnv c3args [c1candA] [c3audioCand] emptyWorld rfl).2.2.2.2
     [c1candA] emptyWorld (by decide)⟩

/-- The batch loop splits over list append: later chunks are processed from
the world and totals the earlier chunks produced. -/
theorem processPVBatches_append (env : Env) (args : Args) :
    ∀ (bs1 bs2 : List (List String × List Candidate)) (w : World) (t : RunTotals),
      processPVBatches env args (bs1 ++ bs2) w t =
        processPVBatches env args bs2 (processPVBatches env args bs1 w t).1
          (processPVBatches env args bs1 w t).2
  | [], bs2, w, t => rfl
  | (d, b) :: rest, bs2, w, t => by
    rw [List.cons_append]
    rcases hr : runPVBatch env args b w with ⟨w2, res⟩
    cases res with
    | ok out =>
      rw [processPVBatches.eq_def]
      dsimp only
      rw [hr]
      dsimp only
      rw [show processPVBatches env args ((d, b) :: rest) w t =
        processPVBatches env args rest w2
          ⟨t.imported + out.imported, t.skipped + out.skipped, t.failures⟩ from by
        rw [processPVBatches.eq_def]
        dsimp only
        rw [hr]]
      exact processPVBatches_append env args rest bs2 w2 _
    | error err =>
      rw [processPVBatches.eq_def]
      dsimp only
      rw [hr]
      dsimp only
      rw [show processPVBatches env args ((d, b) :: rest) w t =
        processPVBatches env args rest (logFailure env w2 d "photo_video" b err)
          ⟨t.imported, t.skipped, t.failures + 1⟩ from by
        rw [processPVBatches.eq_def]
        dsimp only
        rw [hr]]
      exact processPVBatches_append env args rest bs2 _ _

/-- C6: Failure isolation: when the chunk (d, b) raises, the batch loop
appends exactly one structured failure entry — carrying the run timestamp,
that chunk's relative source directory, its media kind, its file paths, the
error classification, message and diagnostic trace — to the log of the world
the failing chunk left behind, counts one more failure, and processes every
following chunk from there exactly as it processes the preceding chunks from
the initial world. -/
theorem failure_isolation (env : Env) (args : Args)
    (pre post : List (List String × List Candidate))
    (d : List String) (b : List Candidate) (w : World) (t : RunTotals)
    (w2 : World) (err : DBError)
    (hfail : runPVBatch env args b (processPVBatches env args pre w t).1 =
      (w2, .error err)) :
    processPVBatches env args (pre ++ (d, b) :: post) w t =
      processPVBatches env args post
        (logFailure env w2 d "photo_video" b err)
        ⟨(processPVBatches env args pre w t).2.imported,
         (processPVBatches env args pre w t).2.skipped,
         (processPVBatches env args pre w t).2.failures + 1⟩ ∧
    (logFailure env w2 d "photo_video" b err).failureLog =
      w2.failureLog ++ [⟨env.nowStr, d, "photo_video", b.map (fun c => c.path),
        errorTypeName err, errorMessageOf err, env.formatExc err⟩] := by
  constructor
  · rw [processPVBatches_append env args pre ((d, b) :: post) w t]
    rw [processPVBatches.eq_def]
    dsimp only
    rw [hfail]
  · rfl

/-- Witness for C6: one good chunk, then the update chunk that raises the
AttributeError, then another good chunk; the loop logs one entry with the
concrete fields and continues. -/
theorem failure_isolation_witness :
    processPVBatches demoEnv c6args (c6pre ++ ([], [c2cand]) :: c6post)
        c2world ⟨0, 0, 0⟩ =
      processPVBatches demoEnv c6args c6post
        (logFailure demoEnv c6w2 [] "photo_video" [c2cand] .attrErrorDeleteByHash)
        ⟨(processPVBatches demoEnv c6args c6pre c2world ⟨0, 0, 0⟩).2.imported,
         (processPVBatches demoEnv c6args c6pre c2world ⟨0, 0, 0⟩).2.skipped,
         (processPVBatches demoEnv c6args c6pre c2world ⟨0, 0, 0⟩).2.failures + 1⟩ ∧
    (logFailure demoEnv c6w2 [] "photo_video" [c2cand] .attrErrorDeleteByHash).failureLog =
      c6w2.failureLog ++ [⟨"2026-10-12T00:00:00", [], "photo_video", ["/s/photo.jpg"],
        "AttributeError", "HashDB object has no attribute delete_by_hash",
        "Traceback (most recent call last)"⟩] := by
  have h := failure_isolation demoEnv c6args c6pre c6post [] [c2cand] c2world ⟨0, 0, 0⟩
    c6w2 .attrErrorDeleteByHash (by decide)
  exact ⟨h.1, h.2.trans (by decide)⟩

theorem worldMono_refl (a : World) : worldMono a a :=
  ⟨fun _ _ h => h, fun _ _ h => h, fun _ h => h⟩

theorem worldMono_trans {a b c : World} (h1 : worldMono a b) (h2 : worldMono b c) :
    worldMono a c :=
  ⟨fun t h hp => h2.1 t h (h1.1 t h hp),
   fun t s hp => h2.2.1 t s (h1.2.1 t s hp),
   fun d hd => h2.2.2 d (h1.2.2 d hd)⟩

theorem covered_mono {args : Args} {w w2 : World} {c : Candidate}
    (hc : covered args w c) (hm : worldMono w w2) : covered args w2 c := by
  rcases hc with hc | hc
  · exact Or.inl (hm.1 _ _ hc)
  · exact Or.inr (hm.2.1 _ _ hc)

theorem mem_addDir_self (dirs : List String) (d : String) : d ∈ addDir dirs d := by
  unfold addDir
  by_cases h : d ∈ dirs
  · rwa [if_pos h]
  · rw [if_neg h]
    simp

theorem mem_addDir_of_mem {dirs : List String} {x : String} (h : x ∈ dirs)
    (d : String) : x ∈ addDir dirs d := by
  unfold addDir
  by_cases hd : d ∈ dirs
  · rwa [if_pos hd]
  · rw [if_neg hd]
    exact List.mem_append_left _ h

theorem addDir_of_mem {dirs : List String} {d : String} (h : d ∈ dirs) :
    addDir dirs d = dirs := by
  unfold addDir
  rw [if_pos h]

theorem hash_exists_append (st : DBState) (rs : List FileRec) (t h : String)
    (hp : HashDB.hash_exists st t h = true) :
    HashDB.hash_exists { st with files := st.files ++ rs } t h = true := by
  unfold HashDB.hash_exists at hp ⊢
  simp only [List.any_append, Bool.or_eq_true]
  exact Or.inl hp

theorem importKeyPresent_append (st : DBState) (rs : List ImportRec) (t s : String)
    (hp : importKeyPresent st t s = true) :
    importKeyPresent { st with imports := st.imports ++ rs } t s = true := by
  unfold importKeyPresent at hp ⊢
  simp only [List.any_append, Bool.or_eq_true]
  exact Or.inl hp

theorem importKeyPresent_update_import (st : DBState) (t0 s0 h : String)
    (p : Option String) (t s : String) :
    importKeyPresent (HashDB.update_import st t0 s0 h p) t s =
      importKeyPresent st t s := by
  unfold importKeyPresent HashDB.update_import
  simp only
  induction st.imports with
  | nil => rfl
  | cons r rs ih =>
    simp only [List.map_cons, List.any_cons, ih]
    congr 1
    by_cases hr : (r.target == t0 && r.sourcePath == s0) = true
    · rw [if_pos hr]
    · rw [if_neg (by simpa using hr)]

theorem doCopyMove_db (w : World) (args : Args) (c : Candidate) (p : String) :
    (doCopyMove w args c p).db = w.db := by
  unfold doCopyMove
  by_cases hm : args.move = true
  · simp [hm]
  · simp [hm]

theorem doCopyMove_dirs (w : World) (args : Args) (c : Candidate) (p : String) :
    (doCopyMove w args c p).dirs = w.dirs := by
  unfold doCopyMove
  by_cases hm : args.move = true
  · simp [hm]
  · simp [hm]

theorem worldMono_doCopyMove (w : World) (args : Args) (c : Candidate) (p : String) :
    worldMono w (doCopyMove w args c p) := by
  refine ⟨?_, ?_, ?_⟩
  · intro t h hp
    rw [doCopyMove_db]
    exact hp
  · intro t s hp
    rw [doCopyMove_db]
    exact hp
  · intro d hd
    rw [doCopyMove_dirs]
    exact hd

/-- A successful `insert` appends the one row. -/
theorem insert_ok_files {st db2 : DBState} {r : FileRec}
    (hins : HashDB.insert st r = .ok db2) :
    db2 = { st with files := st.files ++ [r] } := by
  unfold HashDB.insert at hins
  by_cases hany : (st.files.any (fun q =>
      q.target == r.target && q.hash == r.hash && q.filePath == r.filePath)) = true
  · rw [if_pos hany] at hins
    cases hins
  · rw [if_neg (by simpa using hany)] at hins
    cases hins
    rfl

theorem worldMono_insert {st db2 : DBState} {r : FileRec}
    (hins : HashDB.insert st r = .ok db2) (w : World)
    (hdb : w.db = st) :
    worldMono w { w with db := db2 } := by
  subst hdb
  rw [insert_ok_files hins]
  refine ⟨?_, ?_, fun d hd => hd⟩
  · intro t h hp
    unfold HashDB.hash_exists at hp ⊢
    simp only [List.any_append, Bool.or_eq_true]
    exact Or.inl hp
  · intro t s hp
    rw [get_import_isSome_iff] at hp ⊢
    exact hp

theorem worldMono_record_import (st : DBState) (t0 s0 h0 : String)
    (p0 : Option String) (w : World) (hdb : w.db = st) :
    worldMono w { w with db := HashDB.record_import st t0 s0 h0 p0 } := by
  subst hdb
  unfold HashDB.record_import
  by_cases hany : (w.db.imports.any (fun r =>
      r.target == t0 && r.sourcePath == s0)) = true
  · rw [if_pos hany]
    exact worldMono_refl _
  · rw [if_neg (by simpa using hany)]
    refine ⟨fun t h hp => hp, ?_, fun d hd => hd⟩
    intro t s hp
    rw [get_import_isSome_iff] at hp ⊢
    exact importKeyPresent_append _ [⟨t0, s0, h0, p0⟩] t s hp

theorem worldMono_update_import (st : DBState) (t0 s0 h0 : String)
    (p0 : Option String) (w : World) (hdb : w.db = st) :
    worldMono w { w with db := HashDB.update_import st t0 s0 h0 p0 } := by
  subst hdb
  refine ⟨fun t h hp => hp, ?_, fun d hd => hd⟩
  intro t s hp
  rw [get_import_isSome_iff] at hp ⊢
  rw [importKeyPresent_update_import]
  exact hp

/-- Executing update entries only grows the monotone facts. -/
theorem pvRunUpdates_mono (env : Env) (args : Args) :
    ∀ (entries : List ToImportEntry) (w : World) (n : Nat),
      worldMono w (pvRunUpdates env args entries w n).1
  | [], w, n => worldMono_refl w
  | e :: rest, w, n => by
    rw [pvRunUpdates]
    cases e.oldFilePath with
    | none => exact pvRunUpdates_mono env args rest w n
    | some op =>
      dsimp only
      cases fsFind w.fs (joinPath (baseFor args e.cand) op) with
      | none => exact pvRunUpdates_mono env args rest w n
      | some fe =>
        dsimp only
        have hcm := worldMono_doCopyMove w args e.cand (joinPath (baseFor args e.cand) op)
        cases e.oldHash with
        | some oh => exact hcm
        | none =>
          dsimp only
          rcases hins : HashDB.insert (doCopyMove w args e.cand
              (joinPath (baseFor args e.cand) op)).db
              ⟨baseFor args e.cand, e.cand.hash, e.cand.size, op,
               dateStrOf env e.cand.path, some e.cand.path⟩ with db2 | db2
          · exact hcm
          · have hm1 := worldMono_insert hins
              (doCopyMove w args e.cand (joinPath (baseFor args e.cand) op)) rfl
            have hm2 := worldMono_update_import db2 (baseFor args e.cand)
              e.cand.path e.cand.hash (some op)
              ({ doCopyMove w args e.cand (joinPath (baseFor args e.cand) op) with
                db := db2 }) rfl
            exact worldMono_trans (worldMono_trans (worldMono_trans hcm hm1) hm2)
              (pvRunUpdates_mono env args rest _ _)

/-- A batch run, whatever its outcome, only grows the monotone facts. -/
theorem runPVBatch_mono (env : Env) (args : Args) (batch : List Candidate)
    (w : World) : worldMono w (runPVBatch env args batch w).1 := by
  unfold runPVBatch
  by_cases hE : (toImportEntries (pvDecisions env args w batch)).isEmpty = true
  · rw [if_pos hE]
    exact worldMono_refl w
  · rw [if_neg hE]
    by_cases hdry : args.dryRun = true
    · rw [if_pos hdry]
      by_cases hany : (toImportEntries (pvDecisions env args w batch)).any
          (fun e => !e.oldFilePath.isSome) = true
      · rw [if_pos hany]
        exact worldMono_refl w
      · rw [if_neg hany]
        exact worldMono_refl w
    · rw [if_neg hdry]
      dsimp only
      split
      next w2 n2 err hu =>
        have h1 := pvRunUpdates_mono env args
          ((toImportEntries (pvDecisions env args w batch)).filter
            (fun e => e.oldFilePath.isSome)) w 0
        rw [hu] at h1
        exact h1
      next w2 n2 hu =>
        have hmu : worldMono w w2 := by
          have h1 := pvRunUpdates_mono env args
            ((toImportEntries (pvDecisions env args w batch)).filter
              (fun e => e.oldFilePath.isSome)) w 0
          rw [hu] at h1
          exact h1
        split
        · exact hmu
        · exact hmu

theorem logFailure_mono (env : Env) (w : World) (d : List String) (mt : String)
    (b : List Candidate) (err : DBError) :
    worldMono w (logFailure env w d mt b err) :=
  ⟨fun _ _ hp => hp, fun _ _ hp => hp, fun _ hd => hd⟩

theorem processPVBatches_mono (env : Env) (args : Args) :
    ∀ (batches : List (List String × List Candidate)) (w : World) (t : RunTotals),
      worldMono w (processPVBatches env args batches w t).1
  | [], w, t => worldMono_refl w
  | (d, b) :: rest, w, t => by
    rw [processPVBatches.eq_def]
    dsimp only
    rcases hr : runPVBatch env args b w with ⟨w2, res⟩
    have hm1 : worldMono w w2 := by
      have := runPVBatch_mono env args b w
      rw [hr] at this
      exact this
    cases res with
    | ok out =>
      dsimp only
      exact worldMono_trans hm1 (processPVBatches_mono env args rest w2 _)
    | error err =>
      dsimp only
      exact worldMono_trans (worldMono_trans hm1
          (logFailure_mono env w2 d "photo_video" b err))
        (processPVBatches_mono env args rest _ _)

theorem processPVBatches_failures_mono (env : Env) (args : Args) :
    ∀ (batches : List (List String × List Candidate)) (w : World) (t : RunTotals),
      t.failures ≤ (processPVBatches env args batches w t).2.failures
  | [], w, t => le_refl _
  | (d, b) :: rest, w, t => by
    rw [processPVBatches.eq_def]
    dsimp only
    rcases hr : runPVBatch env args b w with ⟨w2, res⟩
    cases res with
    | ok out =>
      dsimp only
      exact processPVBatches_failures_mono env args rest w2
        ⟨t.imported + out.imported, t.skipped + out.skipped, t.failures⟩
    | error err =>
      dsimp only
      have h2 := processPVBatches_failures_mono env args rest
        (logFailure env w2 d "photo_video" b err)
        ⟨t.imported, t.skipped, t.failures + 1⟩
      exact Nat.le_trans (Nat.le_succ t.failures) h2

/-- Under default flags (non-interactive, no --update) the decision ladder
never emits an update. -/
theorem pvDecide_not_update (env : Env) (args : Args) (w : World) (c : Candidate)
    (hint : args.interactive = false) (hupd : args.update = false)
    (oh : String) (op : Option String) :
    pvDecide env args w c ≠ .importUpdate oh op := by
  unfold pvDecide decideCandidate
  by_cases hh : HashDB.hash_exists w.db (baseFor args c) c.hash = true
  · rw [if_pos hh]
    intro h
    cases h
  · rw [if_neg hh]
    rcases hgi : HashDB.get_import w.db (baseFor args c) c.path with _ | imp
    · intro h
      cases h
    · dsimp only
      simp only [hint, hupd]
      by_cases hsn : (match oldTargetOf (baseFor args c) imp with
        | none => false
        | some tp => match fsFind w.fs tp with
          | none => false
          | some e => source_is_newer c e) = true
      · simp only [hsn]
        intro h
        cases h
      · simp only [Bool.not_eq_true] at hsn
        simp only [hsn]
        intro h
        cases h

/-- A skip decision always rests on an indexed hash or an import record. -/
theorem pvDecide_skip_covered (env : Env) (args : Args) (w : World) (c : Candidate)
    (r : SkipReason) (hdec : pvDecide env args w c = .skip r) :
    covered args w c := by
  unfold pvDecide decideCandidate at hdec
  by_cases hh : HashDB.hash_exists w.db (baseFor args c) c.hash = true
  · exact Or.inl hh
  · rw [if_neg hh] at hdec
    rcases hgi : HashDB.get_import w.db (baseFor args c) c.path with _ | imp
    · rw [hgi] at hdec
      cases hdec
    · refine Or.inr ?_
      rw [hgi]
      rfl

/-- A covered candidate is always decided as a skip under default flags. -/
theorem covered_skip (env : Env) (args : Args) (w : World) (c : Candidate)
    (hint : args.interactive = false) (hupd : args.update = false)
    (hcov : covered args w c) :
    ∃ r, pvDecide env args w c = PVDecision.skip r := by
  unfold pvDecide decideCandidate
  by_cases hh : HashDB.hash_exists w.db (baseFor args c) c.hash = true
  · rw [if_pos hh]
    exact ⟨.alreadyPresent, rfl⟩
  · rw [if_neg hh]
    rcases hcov with hcov | hcov
    · exact absurd hcov hh
    · rcases Option.isSome_iff_exists.mp hcov with ⟨imp, hgi⟩
      rw [hgi]
      dsimp only
      simp only [hint, hupd]
      by_cases hsn : (match oldTargetOf (baseFor args c) imp with
        | none => false
        | some tp => match fsFind w.fs tp with
          | none => false
          | some e => source_is_newer c e) = true
      · simp only [hsn]
        exact ⟨.updateFlagOff, rfl⟩
      · simp only [Bool.not_eq_true] at hsn
        simp only [hsn]
        exact ⟨.notNewer, rfl⟩

/-- If every decision of a batch is a skip, the to-import list is empty. -/
theorem toImportEntries_skip_nil (ds : List (Candidate × PVDecision))
    (h : ∀ cd ∈ ds, ∃ r, cd.2 = PVDecision.skip r) :
    toImportEntries ds = [] := by
  unfold toImportEntries
  rw [List.filterMap_eq_nil_iff]
  intro cd hcd
  rcases h cd hcd with ⟨r, hr⟩
  rw [hr]

/-- If every decision of a batch is a skip, the skip counter is the batch
length. -/
theorem countSkips_all (ds : List (Candidate × PVDecision))
    (h : ∀ cd ∈ ds, ∃ r, cd.2 = PVDecision.skip r) :
    countSkips ds = ds.length := by
  unfold countSkips
  induction ds with
  | nil => rfl
  | cons cd rest ih =>
    rcases h cd (by simp) with ⟨r, hr⟩
    rw [List.filter_cons_of_pos (by rw [hr])]
    simp only [List.length_cons]
    rw [ih (fun x hx => h x (List.mem_cons_of_mem cd hx))]

/-- Every member of a photo/video batch comes from the scanned file list. -/
theorem mem_batch_mem_files (files : List Candidate) (bs : Nat) (hbs : 0 < bs)
    (d : List String) (ch : List Candidate)
    (hb : (d, ch) ∈ iterBatches (groupBySourceDir files) bs)
    (c : Candidate) (hc : c ∈ ch) : c ∈ files := by
  rcases (mem_iterBatches _ bs d ch).mp hb with ⟨g, hg, _, hch⟩
  have hcg : c ∈ g.2 := by
    rw [← flatten_chunksOf bs hbs g.2]
    exact List.mem_flatten.mpr ⟨ch, hch, hc⟩
  have hg2 : g ∈ groupByKey (fun c2 => c2.relParent) files :=
    (perm_sortByKey _ _).mem_iff.mp hg
  have hgk : (g.1, g.2) ∈ groupByKey (fun c2 => c2.relParent) files := hg2
  rcases (mem_groupByKey _ files g.1 g.2).mp hgk with ⟨_, hfil⟩
  rw [hfil] at hcg
  exact List.mem_filter.mp hcg |>.1

/-- An element of a positively sized chunking lies in some chunk. -/
theorem mem_chunks_of_mem (bs : Nat) (hbs : 0 < bs) (l : List α) (x : α)
    (hx : x ∈ l) : ∃ ch ∈ chunksOf bs l, x ∈ ch := by
  rw [← flatten_chunksOf bs hbs l] at hx
  exact List.mem_flatten.mp hx

/-- An element belongs to its own key bucket. -/
theorem self_mem_bucket [DecidableEq β] (key : α → β) (xs : List α) (x : α)
    (hx : x ∈ xs) : x ∈ xs.filter (fun y => key y == key x) :=
  List.mem_filter.mpr ⟨hx, by simp⟩

/-- Every scanned file lands in some photo/video batch. -/
theorem mem_files_mem_batch (files : List Candidate) (bs : Nat) (hbs : 0 < bs)
    (c : Candidate) (hc : c ∈ files) :
    ∃ d ch, (d, ch) ∈ iterBatches (groupBySourceDir files) bs ∧ c ∈ ch := by
  have hbucket := self_mem_groupByKey_bucket (fun c2 : Candidate => c2.relParent) files c hc
  have hg := (perm_sortByKey
    (fun (a b : List String × List Candidate) => dirKeyLe a.1 b.1) _).mem_iff.mpr hbucket
  rcases mem_chunks_of_mem bs hbs _ c
    (self_mem_bucket (fun c2 : Candidate => c2.relParent) files c hc) with ⟨ch, hch, hcch⟩
  exact ⟨c.relParent, ch, (mem_iterBatches _ bs _ ch).mpr
    ⟨_, hg, rfl, hch⟩, hcch⟩

/-- The batch sizes of one directory group add back up to the group size. -/
theorem sum_len_chunks_pairs (bs : Nat) (hbs : 0 < bs) (d : List String)
    (l : List Candidate) :
    ((((chunksOf bs l).map (fun ch => (d, ch))).map
      (fun b => b.2.length)).sum) = l.length := by
  rw [List.map_map]
  rw [show ((fun b => b.2.length) ∘ fun ch => ((d, ch) : List String × List Candidate)) =
    (List.length : List Candidate → Nat) from rfl]
  rw [← List.length_flatten, flatten_chunksOf bs hbs]

/-- The batch sizes over all groups add back up to the candidate count. -/
theorem sum_len_iterBatches (files : List Candidate) (bs : Nat) (hbs : 0 < bs) :
    (((iterBatches (groupBySourceDir files) bs).map (fun b => b.2.length)).sum) =
      files.length := by
  have hA : ∀ gs : List (List String × List Candidate),
      (((iterBatches gs bs).map (fun b => b.2.length)).sum) =
        ((gs.map (fun g => g.2.length)).sum) := by
    intro gs
    induction gs with
    | nil => rfl
    | cons g rest ih =>
      unfold iterBatches at ih ⊢
      simp only [List.map_cons, List.flatten_cons, List.map_append, List.sum_append]
      rw [ih, sum_len_chunks_pairs bs hbs g.1 g.2, List.sum_cons]
  rw [hA]
  have hperm : ((groupBySourceDir files).map (fun g => g.2.length)).Perm
      (((groupByKey (fun c2 => c2.relParent) files)).map (fun g => g.2.length)) :=
    (perm_sortByKey _ _).map _
  rw [hperm.sum_eq]
  have hlen : (((groupByKey (fun c2 => c2.relParent) files)).map Prod.snd).flatten.length =
      files.length := (flatten_groupByKey_perm _ files).length_eq
  rw [List.length_flatten, List.map_map] at hlen
  exact hlen

/-- A batch of covered candidates is reported as all-skipped and leaves the
world untouched. -/
theorem runPVBatch_all_skip (env : Env) (args : Args) (batch : List Candidate)
    (w : World) (hint : args.interactive = false) (hupd : args.update = false)
    (hcov : ∀ c ∈ batch, covered args w c) :
    runPVBatch env args batch w =
      (w, .ok ⟨0, batch.length, pvDecisions env args w batch⟩) := by
  have hskip : ∀ cd ∈ pvDecisions env args w batch, ∃ r, cd.2 = PVDecision.skip r := by
    intro cd hcd
    rcases List.mem_map.mp hcd with ⟨c, hc, rfl⟩
    exact covered_skip env args w c hint hupd (hcov c hc)
  unfold runPVBatch
  dsimp only
  rw [toImportEntries_skip_nil _ hskip]
  rw [if_pos (List.isEmpty_nil)]
  rw [countSkips_all _ hskip]
  simp only [pvDecisions, List.length_map]

/-- A run over batches of covered candidates only accumulates skips. -/
theorem processPVBatches_all_skip (env : Env) (args : Args)
    (hint : args.interactive = false) (hupd : args.update = false) :
    ∀ (batches : List (List String × List Candidate)) (w : World) (t : RunTotals),
      (∀ b ∈ batches, ∀ c ∈ b.2, covered args w c) →
      processPVBatches env args batches w t =
        (w, ⟨t.imported, t.skipped + ((batches.map (fun b => b.2.length)).sum),
          t.failures⟩)
  | [], w, t, _ => rfl
  | (d, b) :: rest, w, t, hcov => by
    rw [processPVBatches.eq_def]
    dsimp only
    rw [runPVBatch_all_skip env args b w hint hupd (hcov (d, b) (by simp))]
    dsimp only
    rw [processPVBatches_all_skip env args hint hupd rest w _
      (fun b2 hb2 c hc => hcov b2 (List.mem_cons_of_mem _ hb2) c hc)]
    simp only [List.map_cons, List.sum_cons, Prod.mk.injEq, RunTotals.mk.injEq,
      Nat.add_zero, true_and, and_true]
    omega

/-- Under default flags every to-import entry is a plain new import. -/
theorem toImportEntries_oldFilePath_none (env : Env) (args : Args) (w : World)
    (batch : List Candidate) (hint : args.interactive = false)
    (hupd : args.update = false) :
    ∀ e ∈ toImportEntries (pvDecisions env args w batch), e.oldFilePath = none := by
  intro e he
  unfold toImportEntries at he
  rcases List.mem_filterMap.mp he with ⟨cd, hcd, hf⟩
  rcases List.mem_map.mp hcd with ⟨c, hc, rfl⟩
  rcases hdec : pvDecide env args w c with r | _ | ⟨oh, op⟩
  · rw [hdec] at hf
    simp at hf
  case importNew =>
    rw [hdec] at hf
    dsimp only at hf
    cases hf
    rfl
  case importUpdate =>
    exact absurd hdec (pvDecide_not_update env args w c hint hupd oh op)

/-- Under default flags the update sub-list of a batch is empty. -/
theorem updates_nil_of_default (env : Env) (args : Args) (w : World)
    (batch : List Candidate) (hint : args.interactive = false)
    (hupd : args.update = false) :
    (toImportEntries (pvDecisions env args w batch)).filter
      (fun e => e.oldFilePath.isSome) = [] := by
  rw [List.filter_eq_nil_iff]
  intro e he
  simp [toImportEntries_oldFilePath_none env args w batch hint hupd e he]

/-- Under default flags the new-import sub-list is the whole to-import list. -/
theorem news_self_of_default (env : Env) (args : Args) (w : World)
    (batch : List Candidate) (hint : args.interactive = false)
    (hupd : args.update = false) :
    (toImportEntries (pvDecisions env args w batch)).filter
      (fun e => !e.oldFilePath.isSome) = toImportEntries (pvDecisions env args w batch) := by
  rw [List.filter_eq_self]
  intro e he
  simp [toImportEntries_oldFilePath_none env args w batch hint hupd e he]

/-- A new-import decision puts its entry on the to-import list. -/
theorem mem_toImportEntries_new (env : Env) (args : Args) (w : World)
    (batch : List Candidate) (c : Candidate) (hc : c ∈ batch)
    (hdec : pvDecide env args w c = PVDecision.importNew) :
    ToImportEntry.mk c none none ∈ toImportEntries (pvDecisions env args w batch) := by
  unfold toImportEntries
  refine List.mem_filterMap.mpr
    ⟨(c, pvDecide env args w c), List.mem_map.mpr ⟨c, hc, rfl⟩, ?_⟩
  rw [hdec]

/-- A to-import list can only be empty when every decision was a skip. -/
theorem skip_of_toImportEntries_nil (ds : List (Candidate × PVDecision))
    (h : toImportEntries ds = []) :
    ∀ cd ∈ ds, ∃ r, cd.2 = PVDecision.skip r := by
  intro cd hcd
  unfold toImportEntries at h
  have hnone := List.filterMap_eq_nil_iff.mp h cd hcd
  rcases hdec : cd.2 with r | _ | ⟨oh, op⟩
  · exact ⟨r, rfl⟩
  · rw [hdec] at hnone
    simp at hnone
  · rw [hdec] at hnone
    simp at hnone

/-- Under default flags a batch can only finish successfully when every one
of its candidates was skipped — i.e. already covered: any new-import entry
sends the batch into the suggest_dirname TypeError instead. -/
theorem runPVBatch_ok_covered (env : Env) (args : Args) (batch : List Candidate)
    (w w2 : World) (out : BatchOut)
    (hint : args.interactive = false) (hupd : args.update = false)
    (hdry : args.dryRun = false)
    (hrun : runPVBatch env args batch w = (w2, .ok out)) :
    ∀ c ∈ batch, covered args w2 c := by
  intro c hc
  unfold runPVBatch at hrun
  dsimp only at hrun
  by_cases hE : (toImportEntries (pvDecisions env args w batch)).isEmpty = true
  · rw [if_pos hE] at hrun
    have hw : w = w2 := congrArg Prod.fst hrun
    rcases skip_of_toImportEntries_nil (pvDecisions env args w batch)
      (List.isEmpty_iff.mp hE) (c, pvDecide env args w c)
      (List.mem_map.mpr ⟨c, hc, rfl⟩) with ⟨r, hr⟩
    rw [← hw]
    exact pvDecide_skip_covered env args w c r hr
  · rw [if_neg hE] at hrun
    rw [if_neg (by simp [hdry])] at hrun
    rw [updates_nil_of_default env args w batch hint hupd] at hrun
    dsimp only [pvRunUpdates] at hrun
    rw [news_self_of_default env args w batch hint hupd] at hrun
    rw [if_neg hE] at hrun
    simp at hrun

/-- A batch loop that added no failure covers every processed candidate. -/
theorem processPVBatches_ok_covered (env : Env) (args : Args)
    (hint : args.interactive = false) (hupd : args.update = false)
    (hdry : args.dryRun = false) :
    ∀ (batches : List (List String × List Candidate)) (w : World) (t : RunTotals),
      (processPVBatches env args batches w t).2.failures = t.failures →
      ∀ b ∈ batches, ∀ c ∈ b.2, covered args (processPVBatches env args batches w t).1 c
  | [], w, t, _, b, hb => absurd hb (List.not_mem_nil _)
  | (d, bt) :: rest, w, t, hfail, b, hb => by
    rw [processPVBatches.eq_def] at hfail ⊢
    dsimp only at hfail ⊢
    rcases hr : runPVBatch env args bt w with ⟨w2, res⟩
    rw [hr] at hfail
    cases res with
    | ok out =>
      dsimp only at hfail ⊢
      intro c hc
      rcases List.mem_cons.mp hb with rfl | hb2
      · have hcov := runPVBatch_ok_covered env args bt w w2 out hint hupd hdry hr c hc
        have hm := processPVBatches_mono env args rest w2
          ⟨t.imported + out.imported, t.skipped + out.skipped, t.failures⟩
        exact covered_mono hcov hm
      · exact processPVBatches_ok_covered env args hint hupd hdry rest w2
          ⟨t.imported + out.imported, t.skipped + out.skipped, t.failures⟩
          hfail b hb2 c hc
    | error err =>
      dsimp only at hfail
      exfalso
      have hmon := processPVBatches_failures_mono env args rest
        (logFailure env w2 d "photo_video" bt err) ⟨t.imported, t.skipped, t.failures + 1⟩
      have h2 : t.failures + 1 ≤ (processPVBatches env args rest
          (logFailure env w2 d "photo_video" bt err)
          ⟨t.imported, t.skipped, t.failures + 1⟩).2.failures := hmon
      rw [hfail] at h2
      omega

/-- A non-empty non-dry photo/video run registers both target roots. -/
theorem importPhotoVideo_dirs (env : Env) (args : Args) (files : List Candidate)
    (w : World) (hfe : files.isEmpty = false) (hdry : args.dryRun = false) :
    args.imagesTarget ∈ (importPhotoVideo env args files w).1.dirs ∧
      args.videoTarget ∈ (importPhotoVideo env args files w).1.dirs := by
  unfold importPhotoVideo
  rw [hfe]
  rw [if_neg (Bool.false_ne_true)]
  dsimp only
  rw [hdry, if_neg (Bool.false_ne_true)]
  have hm := processPVBatches_mono env args
    (iterBatches (groupBySourceDir files) photoVideoBatchSize)
    { w with dirs := addDir (addDir w.dirs args.imagesTarget) args.videoTarget } ⟨0, 0, 0⟩
  exact ⟨hm.2.2 _ (mem_addDir_of_mem (mem_addDir_self _ _) _),
    hm.2.2 _ (mem_addDir_self _ _)⟩

/-- A photo/video run that reported no failure covers every scanned file. -/
theorem importPhotoVideo_ok_covered (env : Env) (args : Args)
    (files : List Candidate) (w : World)
    (hint : args.interactive = false) (hupd : args.update = false)
    (hdry : args.dryRun = false)
    (hfail : (importPhotoVideo env args files w).2.failures = 0) :
    ∀ c ∈ files, covered args (importPhotoVideo env args files w).1 c := by
  intro c hc
  rcases mem_files_mem_batch files photoVideoBatchSize (by decide) c hc with
    ⟨d, ch, hb, hcch⟩
  have hfe : ¬ (files.isEmpty = true) := by
    intro h
    rw [List.isEmpty_iff] at h
    rw [h] at hc
    exact absurd hc (List.not_mem_nil _)
  unfold importPhotoVideo at hfail ⊢
  rw [if_neg hfe] at hfail ⊢
  dsimp only at hfail ⊢
  rw [hdry, if_neg (Bool.false_ne_true)] at hfail ⊢
  exact processPVBatches_ok_covered env args hint hupd hdry _ _ _ hfail (d, ch) hb c hcch

/-- A photo/video run over already-covered files is a pure skip report. -/
theorem importPhotoVideo_covered_run (env : Env) (args : Args)
    (files : List Candidate) (w : World)
    (hint : args.interactive = false) (hupd : args.update = false)
    (hdry : args.dryRun = false)
    (himg : args.imagesTarget ∈ w.dirs) (hvid : args.videoTarget ∈ w.dirs)
    (hcov : ∀ c ∈ files, covered args w c) :
    importPhotoVideo env args files w = (w, ⟨0, files.length, 0⟩) := by
  unfold importPhotoVideo
  by_cases hfe : files.isEmpty = true
  · rw [if_pos hfe]
    rw [List.isEmpty_iff] at hfe
    subst hfe
    rfl
  · rw [if_neg hfe]
    dsimp only
    rw [hdry, if_neg (Bool.false_ne_true)]
    rw [addDir_of_mem himg, addDir_of_mem hvid]
    have hall : ∀ b ∈ iterBatches (groupBySourceDir files) photoVideoBatchSize,
        ∀ c ∈ b.2, covered args { w with dirs := w.dirs } c := by
      intro b hb c hc
      rcases b with ⟨d, ch⟩
      exact hcov c (mem_batch_mem_files files photoVideoBatchSize (by decide) d ch hb c hc)
    rw [processPVBatches_all_skip env args hint hupd _ _ ⟨0, 0, 0⟩ hall]
    rw [sum_len_iterBatches files photoVideoBatchSize (by decide)]
    simp only [Nat.zero_add]

/-- C4 (amended): conditional idempotence of the photo/video import pipeline
under the default flags (non-interactive, no --update, no dry-run): if a
full run reports zero failed chunks, then a second run over the same
candidate list against the world the first run produced is a no-op — it
returns that world unchanged (no filesystem write, no directory creation, no
source removal, no new FileRecord, no new ImportRecord, no failure-log
entry) and reports zero imports and zero failures with every candidate
skipped, each one resolved either through its hash already being indexed or
through its import record.  Unconditional idempotence fails: a first run can
never import a fresh photo/video file (the new-import path raises the
suggest_dirname source_root TypeError), so a source tree with any fresh file
re-fails the same chunks on every re-run instead of resolving them as
skips — see the counterexample. -/
theorem idempotence (env : Env) (args : Args) (files : List Candidate) (w : World)
    (hint : args.interactive = false) (hupd : args.update = false)
    (hdry : args.dryRun = false)
    (hfail : (runImport env args files [] w).2.failures = 0) :
    runImport env args files [] (runImport env args files [] w).1 =
      ((runImport env args files [] w).1, ⟨0, files.length, 0⟩) := by
  have hri : ∀ v : World, runImport env args files [] v =
      importPhotoVideo env args files v := fun v => rfl
  simp only [hri] at hfail ⊢
  by_cases hfe : files.isEmpty = true
  · rw [List.isEmpty_iff] at hfe
    subst hfe
    rfl
  · have hfe2 : files.isEmpty = false := by
      cases hb : files.isEmpty
      · rfl
      · exact absurd hb hfe
    have hdirs := importPhotoVideo_dirs env args files w hfe2 hdry
    have hcov := importPhotoVideo_ok_covered env args files w hint hupd hdry hfail
    exact importPhotoVideo_covered_run env args files
      (importPhotoVideo env args files w).1 hint hupd hdry hdirs.1 hdirs.2 hcov

/-- C4 (counterexample): over a fresh source tree re-running is not
idempotent-as-skip: the first run fails its only chunk with the
suggest_dirname TypeError (nothing imported, nothing skipped, one failure)
and the second run, instead of resolving the candidate via the index or via
an import record, fails the very same way. -/
theorem idempotence_counterexample :
    (runImport demoEnv demoArgs [c4cand] [] emptyWorld).2 = ⟨0, 0, 1⟩ ∧
    (runImport demoEnv demoArgs [c4cand] []
      (runImport demoEnv demoArgs [c4cand] [] emptyWorld).1).2 = ⟨0, 0, 1⟩ := by
  refine ⟨?_, ?_⟩ <;> decide

/-- Witness for the amended C4 at a concrete already-indexed candidate: the
first run skips it with zero failures, and the second run returns the
first-run world unchanged, skipping it again. -/
theorem idempotence_witness :
    (runImport demoEnv demoArgs [c4cand] [] c4world).2.failures = 0 ∧
    runImport demoEnv demoArgs [c4cand] []
        (runImport demoEnv demoArgs [c4cand] [] c4world).1 =
      ((runImport demoEnv demoArgs [c4cand] [] c4world).1, ⟨0, 1, 0⟩) :=
  ⟨by decide, idempotence demoEnv demoArgs [c4cand] c4world rfl rfl rfl (by decide)⟩

end Undisorder

